import Mathlib

set_option maxRecDepth 4000

/-!
Verification of the SRT (SubRip) text-processing core of the `three-play`
package: the timestamp codec (`total_ms`, `total_seconds`, `timestamp` in
`three_play/utils/parse/srt.py`), the caption-block model (`SRTLine`,
`ListOfSRTLine` in `three_play/utils/parse/models.py`) and the timeline
editing operations (`get_srt_duration`, `remove_dialogue_for_first_ts`,
`remove_dialogue_between`, and `ThreePlayHelper.cut_transcript_in_middle`).

Python strings are modelled as `List Char`.  Each Python `str` operation the
source uses is modelled explicitly below; a Python exception escaping a
function is modelled by an `Option` result of `none`.
-/

namespace ThreePlay

/-- Python strings, modelled as lists of characters. -/
abbrev PyStr := List Char

/-- The whitespace characters stripped by Python `str.strip()` (ASCII subset;
exotic Unicode whitespace is not modelled, none of the claims involve it). -/
def pySpace (c : Char) : Bool :=
  c = ' ' || c = '\t' || c = '\n' || c = '\r' || c = '\x0b' || c = '\x0c'

/-- Python `s.strip()`: drop whitespace from both ends. -/
def pyStrip (s : PyStr) : PyStr :=
  ((s.dropWhile pySpace).reverse.dropWhile pySpace).reverse

/-- Python truthiness of `line.strip()`: `isBlank line` holds iff the line is
empty or all whitespace. -/
def isBlank (s : PyStr) : Bool := (pyStrip s).isEmpty

/-- Numeric value of a string of ASCII digits (left-to-right base 10). -/
def digitsVal (ds : PyStr) : Nat := ds.foldl (fun a c => a * 10 + (c.toNat - 48)) 0

/-- Python `int(s)` for a string argument: strip whitespace, allow an optional
sign, then require one or more ASCII digits; a `ValueError` is modelled as
`none`.  (Underscore digit grouping and non-ASCII digits are not modelled.) -/
def pyInt (s : PyStr) : Option Int :=
  match pyStrip s with
  | [] => none
  | c :: ds =>
    if c = '-' then
      if !ds.isEmpty && ds.all Char.isDigit then some (-(digitsVal ds : Int)) else none
    else if c = '+' then
      if !ds.isEmpty && ds.all Char.isDigit then some (digitsVal ds) else none
    else if (c :: ds).all Char.isDigit then some (digitsVal (c :: ds)) else none

/-- Python `s.split(sep)` for a single-character separator `sep`: the result
always has one more element than the number of separator occurrences. -/
def splitChar (c : Char) (s : PyStr) : List PyStr := s.splitOn c

/-- The ASCII digit character for `d < 10`. -/
def digitChar (d : Nat) : Char := Char.ofNat (48 + d)

/-- Fueled helper for `natDigits` (structural recursion on the fuel, so the
kernel can evaluate it). -/
def natDigitsAux (fuel : Nat) (n : Nat) : PyStr :=
  match fuel, n with
  | _, 0 => []
  | 0, _ => []
  | f + 1, m => natDigitsAux f (m / 10) ++ [digitChar (m % 10)]

/-- The decimal digit characters of `n`, most significant first (`[]` for 0). -/
def natDigits (n : Nat) : PyStr := natDigitsAux n n

/-- Python `str(n)` for a natural number. -/
def pyStrNat (n : Nat) : PyStr := if n = 0 then ['0'] else natDigits n

/-- Python `str(i)` for an `int`: a minus sign followed by the decimal digits
of the absolute value when negative. -/
def pyStrInt (i : Int) : PyStr :=
  if i < 0 then '-' :: pyStrNat i.natAbs else pyStrNat i.toNat

/-- Python `x, y = s.rsplit(sep, 1)` for a single-character separator: split at
the last occurrence of `sep`; unpacking raises (`none`) when `sep` is absent. -/
def rsplitOnce (c : Char) (s : PyStr) : Option (PyStr × PyStr) :=
  let parts := splitChar c s
  if parts.length < 2 then none
  else some (List.intercalate [c] parts.dropLast, parts.getLastD [])

/-- `reduce(lambda sum, d: sum * 60 + int(d), parts, 0)` with a `ValueError`
from `int` propagating as `none`. -/
def foldSixty (parts : List PyStr) : Option Int :=
  parts.foldlM (fun acc d => (pyInt d).map (fun n => acc * 60 + n)) 0

/-- Model of `total_ms` (`three_play/utils/parse/srt.py`): replace every `.`
with `,`, split at the last `,` (falling back to the last `:` of the original
string), fold the colon-separated components as base-60 digits, then return
`seconds * 1000 + milliseconds`.  `none` models an uncaught `ValueError`. -/
def total_ms (ts : PyStr) : Option Int :=
  let replaced := ts.map (fun ch => if ch = '.' then ',' else ch)
  let branch := fun (p : PyStr × PyStr) =>
    (foldSixty (splitChar ':' p.1)).bind
      (fun secs => (pyInt p.2).map (fun ms => secs * 1000 + ms))
  match rsplitOnce ',' replaced with
  | some p => branch p
  | none =>
    match rsplitOnce ':' ts with
    | some p => branch p
    | none => none

/-- Left-pad a string with `'0'` to width `n` (the `{m:0>3}` format spec). -/
def padZeroLeft (n : Nat) (s : PyStr) : PyStr := List.replicate (n - s.length) '0' ++ s

/-- Model of `total_seconds` (`three_play/utils/parse/srt.py`):
`divmod(total_ms(ts), 1000)` rendered as `f"{seconds}.{milliseconds:0>3}"`.
Python `divmod` on ints is floor division, i.e. `Int.fdiv`/`Int.fmod`. -/
def total_seconds (ts : PyStr) : Option PyStr :=
  (total_ms ts).map (fun n =>
    let secs := Int.fdiv n 1000
    let ms := Int.fmod n 1000
    pyStrInt secs ++ '.' :: padZeroLeft 3 (pyStrInt ms))

/-- Round a rational to the nearest integer, ties to even: the rounding CPython
uses when converting fractional seconds to whole microseconds in
`datetime.timedelta`. -/
def roundHalfEven (q : ℚ) : ℤ :=
  let f := q.floor
  let r := q - (f : ℚ)
  if r < 1 / 2 then f
  else if 1 / 2 < r then f + 1
  else if f % 2 = 0 then f else f + 1

/-- `str(datetime.timedelta)` for a delta of `us` microseconds:
`H:MM:SS`, prefixed by `D day[s], ` when the normalised day count is nonzero
and suffixed by `.uuuuuu` when the microsecond remainder is nonzero.
Normalisation uses floor division (Python `divmod`). -/
def timedeltaStr (us : ℤ) : PyStr :=
  let days := Int.fdiv us 86400000000
  let rem := Int.fmod us 86400000000
  let secs := Int.fdiv rem 1000000
  let micro := Int.fmod rem 1000000
  let mm0 := Int.fdiv secs 60
  let ss := Int.fmod secs 60
  let hh := Int.fdiv mm0 60
  let mm := Int.fmod mm0 60
  let base := pyStrInt hh ++ ':' :: padZeroLeft 2 (pyStrInt mm)
                ++ ':' :: padZeroLeft 2 (pyStrInt ss)
  let base2 :=
    if days ≠ 0 then
      pyStrInt days ++ " day".toList
        ++ (if days = 1 ∨ days = -1 then [] else ['s']) ++ ", ".toList ++ base
    else base
  if micro ≠ 0 then base2 ++ '.' :: padZeroLeft 6 (pyStrInt micro) else base2

/-- Model of `timestamp` (`three_play/utils/parse/srt.py`):
`str(timedelta(seconds=seconds))`, dropping the last three characters (the
sub-millisecond digits of the microsecond field) when a `.` is present.  The
`hours`/`minutes`/`milliseconds` keyword arguments keep their default 0 in
every use relevant to the claims.  The float argument is abstracted to an
exact rational (IEEE-754 double rounding is not modelled; all claim inputs
are exactly representable at the precision that matters). -/
def timestamp (seconds : ℚ) : PyStr :=
  let ts := timedeltaStr (roundHalfEven (seconds * 1000000))
  if ts.contains '.' then ts.take (ts.length - 3) else ts

/-- The `-->` arrow separating the two timestamps of an SRT timing line. -/
def arrowStr : PyStr := "-->".toList

/-- Python `sub in s` substring membership. -/
def containsSub (sep : PyStr) : PyStr → Bool
  | [] => sep.isEmpty
  | c :: cs => sep.isPrefixOf (c :: cs) || containsSub sep cs

/-- Python `s.split(sep, 1)[0]` for a non-empty separator: the part of `s`
before the first occurrence of `sep`, or all of `s` when `sep` is absent. -/
def beforeSub (sep : PyStr) : PyStr → PyStr
  | [] => []
  | c :: cs => if sep.isPrefixOf (c :: cs) then [] else c :: beforeSub sep cs

/-- Python `s.rsplit(sep, 1)[-1]` for a non-empty separator: the part of `s`
after the last occurrence of `sep`, or all of `s` when `sep` is absent. -/
def afterLastSub (sep : PyStr) (s : PyStr) : PyStr :=
  (beforeSub sep.reverse s.reverse).reverse

/-- `'-->' in line`. -/
def containsArrow (line : PyStr) : Bool := containsSub arrowStr line

/-- `line.split('-->', 1)[0].strip()`: the start timestamp of a timing line. -/
def startTsOf (line : PyStr) : PyStr := pyStrip (beforeSub arrowStr line)

/-- `line.replace(' ', '').rsplit('-->', 1)[-1]`: the end timestamp of a
timing line as read by `get_srt_duration`. -/
def endTsOfLine (line : PyStr) : PyStr :=
  afterLastSub arrowStr (line.filter (fun c => c ≠ ' '))

/-- Python `float(s)` on a plain decimal literal (optional sign, digits,
optional fractional part; exponent forms are never produced by this code).
The IEEE-754 double is abstracted to the exact rational it denotes before
rounding; the claims only use the value to identify which timestamp was
chosen. -/
def pyFloat (s : PyStr) : Option ℚ :=
  let core := fun (u : PyStr) =>
    match splitChar '.' u with
    | [a] => if !a.isEmpty && a.all Char.isDigit then some ((digitsVal a : ℚ)) else none
    | [a, b] =>
      if (a.all Char.isDigit && b.all Char.isDigit) && !(a.isEmpty && b.isEmpty) then
        some ((digitsVal a : ℚ) + (digitsVal b : ℚ) / (10 : ℚ) ^ b.length)
      else none
    | _ => none
  match pyStrip s with
  | '-' :: u => (core u).map (fun q => -q)
  | '+' :: u => core u
  | u => core u

/-- One pass of the `get_srt_duration` loop over the reversed line list.
`none` models an uncaught exception from `total_ms`; `some none` means the
loop finished without `break` (so the default is returned); `some (some v)`
means the loop broke with `captions_end_seconds = v`. -/
def durationLoop (followingLine : PyStr) : List PyStr → Option (Option ℚ)
  | [] => some none
  | line :: rest =>
    if containsArrow line then
      if isBlank followingLine then durationLoop followingLine rest
      else
        match (total_seconds (endTsOfLine line)).bind pyFloat with
        | none => none
        | some v => some (some v)
    else durationLoop line rest

/-- Model of `get_srt_duration` (`three_play/utils/parse/srt.py`): walk the
lines of the file backwards with `following_line` tracking the previously
visited (i.e. next-in-file) non-timing line; the first timing line whose
following line is non-blank supplies the end timestamp. -/
def get_srt_duration (srt : PyStr) (defaultEnd : ℚ) : Option ℚ :=
  match durationLoop [] (splitChar '\n' srt).reverse with
  | none => none
  | some none => some defaultEnd
  | some (some v) => some v

/-- The lines kept after a matched timing line in
`remove_dialogue_for_first_ts`: Python scans from `i + 1` for the first blank
line `j` and keeps `caption_text[j:]`; when no blank line exists `split_ind`
stays `i + 1`, so everything is kept. -/
def removeDialogueSuffix (ls : List PyStr) : List PyStr :=
  match ls.findIdx? (fun l => isBlank l) with
  | some k => ls.drop k
  | none => ls

/-- The line scan of `remove_dialogue_for_first_ts`: `none` when no timing
line with the target start timestamp exists. -/
def removeFirstTsLoop (ts : PyStr) : List PyStr → Option (List PyStr)
  | [] => none
  | line :: rest =>
    if containsArrow line then
      if startTsOf line = ts then some (line :: removeDialogueSuffix rest)
      else (removeFirstTsLoop ts rest).map (fun r => line :: r)
    else (removeFirstTsLoop ts rest).map (fun r => line :: r)

/-- Model of `remove_dialogue_for_first_ts` (`three_play/utils/parse/srt.py`). -/
def remove_dialogue_for_first_ts (srt ts : PyStr) : PyStr :=
  match removeFirstTsLoop ts (splitChar '\n' srt) with
  | some ls => List.intercalate ['\n'] ls
  | none => srt

/-- The line scan of `remove_dialogue_between` with its `exclude_dialogue`
flag; a timing line sets the flag when its start falls in
`[startMs, endMs)` (and is itself always kept), a non-blank line is skipped
while the flag is set, and a blank line clears the flag.  `none` models an
uncaught `total_ms` exception. -/
def removeBetweenLoop (startMs endMs : Int) : Bool → List PyStr → Option (List PyStr)
  | _, [] => some []
  | excl, line :: rest =>
    if containsArrow line then
      match total_ms (startTsOf line) with
      | none => none
      | some v =>
        let excl2 := if startMs ≤ v ∧ v < endMs then true else excl
        (removeBetweenLoop startMs endMs excl2 rest).map (fun r => line :: r)
    else
      if excl then
        if !isBlank line then removeBetweenLoop startMs endMs excl rest
        else (removeBetweenLoop startMs endMs false rest).map (fun r => line :: r)
      else (removeBetweenLoop startMs endMs excl rest).map (fun r => line :: r)

/-- Model of `remove_dialogue_between` (`three_play/utils/parse/srt.py`);
`'\n'.join(srt_lines or caption_text)` falls back to the original lines when
every line was dropped. -/
def remove_dialogue_between (srt : PyStr) (startMs endMs : Int) : Option PyStr :=
  let captionText := splitChar '\n' srt
  (removeBetweenLoop startMs endMs false captionText).map
    (fun ls => List.intercalate ['\n'] (if ls.isEmpty then captionText else ls))

/-- A caption block (`SRTLine` in `three_play/utils/parse/models.py`).  The
`num` attribute is an `Int` because the property setter coerces every
assigned value with `as_int(n, 0, raise_=False)`.  The `width` field only
feeds the text-wrapping branch of the dialogue setter, which no claim
exercises; dialogue is modelled as the already-split line list. -/
structure SRTLine where
  num : Int
  time_range : PyStr
  dialogue : List PyStr
deriving DecidableEq, Repr

/-- `SRTLine.__init__` with a string `num` argument and a list `dialogue`
argument: the `num` setter applies `as_int(n, 0, raise_=False)` (an empty or
unparsable string coerces to 0), the `dialogue` setter keeps a list argument
verbatim. -/
def SRTLine.mkFromStr (numStr : PyStr) (tr : PyStr) (dia : List PyStr) : SRTLine :=
  { num := (pyInt numStr).getD 0, time_range := tr, dialogue := dia }

/-- `SRTLine.parse` on an already-split line list: the unpacking
`line_num, time_range, *dialogue = lines` raises a `ValueError` (modelled as
`none`) when fewer than two lines are present. -/
def SRTLine.parseLines : List PyStr → Option SRTLine
  | a :: b :: rest => some (SRTLine.mkFromStr a b rest)
  | _ => none

/-- `SRTLine.parse` on a raw string argument: `lines.strip().split('\n')`,
then unpack.  `ListOfSRTLine.__init__` applies this to every `'\n\n'`-split
chunk of the file and lets any `ValueError` propagate. -/
def SRTLine.parseStr (s : PyStr) : Option SRTLine :=
  SRTLine.parseLines (splitChar '\n' (pyStrip s))

/-- `SRTLine.__str__`: `'\n'.join([str(self.num), self.time_range, *self.dialogue])`. -/
def SRTLine.serialize (b : SRTLine) : PyStr :=
  List.intercalate ['\n'] (pyStrInt b.num :: b.time_range :: b.dialogue)

/-- `ListOfSRTLine.insert`: for every block at a position `≥ i`, run
`if not rem_lines.num: rem_lines.num = __index + 1` followed by
`rem_lines.num += 1` (`not n` holds for an `int` exactly when `n == 0`),
then `list.insert(i, b)` (which clamps an out-of-range index). -/
def ListOfSRTLine.insert (l : List SRTLine) (i : Nat) (b : SRTLine) : List SRTLine :=
  let bump := fun (x : SRTLine) =>
    if x.num = 0 then { x with num := ((i : Int) + 1) + 1 }
    else { x with num := x.num + 1 }
  l.take i ++ b :: (l.drop i).map bump

/-- `ThreePlayHelper.cut_transcript_in_middle` (`three_play/v3/helper.py`),
with the remote call `ThreePlayApi.get_formatted_transcript_text(id, clips=clips)`
abstracted as the function `fetch` from the clip-range strings to the fetched
SRT text. -/
def cut_transcript_in_middle (fetch : List PyStr → PyStr)
    (first_end second_start : PyStr) (second_offset_ms : Int)
    (second_end : PyStr) : Option PyStr := do
  let initialFirstEndMs ← total_ms first_end
  let secondStartMs ← total_ms second_start
  let secondEndMs ← total_ms second_end
  let firstEndMs :=
    if second_offset_ms ≠ 0 then initialFirstEndMs + second_offset_ms
    else initialFirstEndMs
  let clips := ['0' :: ',' :: pyStrInt firstEndMs,
                pyStrInt secondStartMs ++ ',' :: pyStrInt secondEndMs]
  let text := fetch clips
  if second_offset_ms ≠ 0 then
    remove_dialogue_between text initialFirstEndMs firstEndMs
  else
    pure (remove_dialogue_for_first_ts text first_end)

/-- A structurally well-formed caption block, used to express what the
editing operations do to a whole SRT file: an index line, a timing line and
the dialogue lines. -/
structure RawBlock where
  index : PyStr
  timing : PyStr
  dialogue : List PyStr
deriving DecidableEq, Repr

/-- The lines of one block as they appear in the file. -/
def blockLines (b : RawBlock) : List PyStr := b.index :: b.timing :: b.dialogue

/-- The lines of a whole SRT file: blocks separated by one blank line. -/
def srtLines (bs : List RawBlock) : List PyStr :=
  List.intercalate [[]] (bs.map blockLines)

/-- The text of a whole SRT file. -/
def srtText (bs : List RawBlock) : PyStr := List.intercalate ['\n'] (srtLines bs)

/-- A line free of embedded newlines (so that joining and re-splitting the
file recovers the same lines). -/
def wfLine (l : PyStr) : Prop := '\n' ∉ l

/-- Structural well-formedness of a block: the index line is non-blank,
newline-free and contains no `-->`; the timing line contains `-->` and no
newline; every dialogue line is non-blank, newline-free and contains no
`-->`. -/
def wfBlock (b : RawBlock) : Prop :=
  containsArrow b.index = false ∧ isBlank b.index = false ∧ wfLine b.index
  ∧ containsArrow b.timing = true ∧ wfLine b.timing
  ∧ ∀ d ∈ b.dialogue, containsArrow d = false ∧ isBlank d = false ∧ wfLine d

/-- Structural well-formedness of a whole file. -/
def wfBlocks (bs : List RawBlock) : Prop := ∀ b ∈ bs, wfBlock b

instance : DecidablePred wfLine := fun _ => instDecidableNot
instance (b : RawBlock) : Decidable (wfBlock b) := by
  unfold wfBlock
  infer_instance
instance (bs : List RawBlock) : Decidable (wfBlocks bs) :=
  List.decidableBAll _ bs

/-- Specification-side effect of `remove_dialogue_between` on one block: a
block whose start timestamp parses to a value in the half-open interval
`[s, e)` loses its dialogue; every other block is untouched. -/
def emptyIfInRange (s e : Int) (b : RawBlock) : RawBlock :=
  match total_ms (startTsOf b.timing) with
  | some v => if s ≤ v ∧ v < e then ⟨b.index, b.timing, []⟩ else b
  | none => b

/-- The last caption block with non-empty dialogue, if any. -/
def lastSpoken (bs : List RawBlock) : Option RawBlock :=
  (bs.filter (fun b => !b.dialogue.isEmpty)).getLast?

/-- Specification-side effect of `remove_dialogue_for_first_ts`: empty the
dialogue of the block at position `k`. -/
def emptyDialogueAt : Nat → List RawBlock → List RawBlock
  | _, [] => []
  | 0, b :: rest => ⟨b.index, b.timing, []⟩ :: rest
  | k + 1, b :: rest => b :: emptyDialogueAt k rest

/-! ### Lemmas about the string primitives -/

theorem dropWhile_eq_self_all {p : Char → Bool} {l : PyStr}
    (h : ∀ c ∈ l, p c = false) : l.dropWhile p = l := by
  cases l with
  | nil => rfl
  | cons a as => simp [List.dropWhile_cons, h a (by simp)]

theorem pyStrip_eq_self {l : PyStr} (h : ∀ c ∈ l, pySpace c = false) :
    pyStrip l = l := by
  unfold pyStrip
  rw [dropWhile_eq_self_all h,
    dropWhile_eq_self_all (fun c hc => h c (List.mem_reverse.mp hc)),
    List.reverse_reverse]

theorem isDigit_ne {c d : Char} (h : c.isDigit = true) (hd : d.isDigit = false) :
    c ≠ d := fun e => by rw [e, hd] at h; exact Bool.noConfusion h

theorem pySpace_false_of_digit {c : Char} (h : c.isDigit = true) :
    pySpace c = false := by
  unfold pySpace
  have h1 := isDigit_ne h (show (' ').isDigit = false by decide)
  have h2 := isDigit_ne h (show ('\t').isDigit = false by decide)
  have h3 := isDigit_ne h (show ('\n').isDigit = false by decide)
  have h4 := isDigit_ne h (show ('\r').isDigit = false by decide)
  have h5 := isDigit_ne h (show ('\x0b').isDigit = false by decide)
  have h6 := isDigit_ne h (show ('\x0c').isDigit = false by decide)
  simp [h1, h2, h3, h4, h5, h6]

theorem pyStrip_digits {l : PyStr} (h : l.all Char.isDigit = true) :
    pyStrip l = l :=
  pyStrip_eq_self (fun c hc => pySpace_false_of_digit (by
    exact List.all_eq_true.mp h c hc))

theorem digitsVal_append_singleton (l : PyStr) (c : Char) :
    digitsVal (l ++ [c]) = digitsVal l * 10 + (c.toNat - 48) := by
  simp [digitsVal, List.foldl_append]

theorem digitsVal_replicate_zero (k : Nat) (l : PyStr) :
    digitsVal (List.replicate k '0' ++ l) = digitsVal l := by
  have : ∀ k : Nat, List.foldl (fun a c => a * 10 + (c.toNat - 48)) 0
      (List.replicate k '0') = 0 := by
    intro k
    induction k with
    | zero => rfl
    | succ n ih => simp [List.replicate_succ, List.foldl_cons]; simpa using ih
  simp [digitsVal, List.foldl_append, this]

theorem natDigitsAux_congr : ∀ (f g n : Nat), n ≤ f → n ≤ g →
    natDigitsAux f n = natDigitsAux g n
  | f, g, 0, _, _ => by cases f <;> cases g <;> rfl
  | 0, _, m + 1, hf, _ => absurd hf (by omega)
  | _ + 1, 0, m + 1, _, hg => absurd hg (by omega)
  | f + 1, g + 1, m + 1, hf, hg => by
    show natDigitsAux f ((m + 1) / 10) ++ _ = natDigitsAux g ((m + 1) / 10) ++ _
    rw [natDigitsAux_congr f g ((m + 1) / 10) (by omega) (by omega)]

theorem natDigits_eq (n : Nat) (h : n ≠ 0) :
    natDigits n = natDigits (n / 10) ++ [digitChar (n % 10)] := by
  obtain ⟨m, rfl⟩ : ∃ m, n = m + 1 := ⟨n - 1, by omega⟩
  show natDigitsAux m ((m + 1) / 10) ++ _ = _
  rw [natDigitsAux_congr m ((m + 1) / 10) ((m + 1) / 10) (by omega) le_rfl]
  rfl

theorem digitChar_toNat {d : Nat} (h : d < 10) : (digitChar d).toNat = 48 + d := by
  interval_cases d <;> decide

theorem digitChar_isDigit {d : Nat} (h : d < 10) : (digitChar d).isDigit = true := by
  interval_cases d <;> decide

theorem digitsVal_natDigits (n : Nat) : digitsVal (natDigits n) = n := by
  induction n using Nat.strong_induction_on with
  | _ n ih =>
    by_cases h : n = 0
    · subst h; rfl
    · rw [natDigits_eq n h, digitsVal_append_singleton,
        ih (n / 10) (Nat.div_lt_self (Nat.pos_of_ne_zero h) (by norm_num)),
        digitChar_toNat (Nat.mod_lt n (by norm_num))]
      omega

theorem natDigits_all_digit (n : Nat) : ∀ c ∈ natDigits n, c.isDigit = true := by
  induction n using Nat.strong_induction_on with
  | _ n ih =>
    by_cases h : n = 0
    · subst h; intro c hc; exact absurd hc (by simp [natDigits, natDigitsAux])
    · rw [natDigits_eq n h]
      intro c hc
      rcases List.mem_append.mp hc with hc | hc
      · exact ih (n / 10) (Nat.div_lt_self (Nat.pos_of_ne_zero h) (by norm_num)) c hc
      · rcases List.mem_singleton.mp hc with rfl
        exact digitChar_isDigit (Nat.mod_lt n (by norm_num))

theorem natDigits_length_le (n k : Nat) (h : n < 10 ^ k) :
    (natDigits n).length ≤ k := by
  induction n using Nat.strong_induction_on generalizing k with
  | _ n ih =>
    by_cases h0 : n = 0
    · subst h0; simp [natDigits, natDigitsAux]
    · have hk : k ≠ 0 := by
        rintro rfl; simp at h; omega
      obtain ⟨j, rfl⟩ : ∃ j, k = j + 1 := ⟨k - 1, by omega⟩
      rw [natDigits_eq n h0]
      have hdiv : n / 10 < 10 ^ j := by
        have : n < 10 ^ j * 10 := by rw [← pow_succ]; exact h
        omega
      have := ih (n / 10) (Nat.div_lt_self (Nat.pos_of_ne_zero h0) (by norm_num)) j hdiv
      simp only [List.length_append, List.length_singleton]
      omega

theorem natDigits_mul10 (n : Nat) (h : n ≠ 0) :
    natDigits (n * 10) = natDigits n ++ ['0'] := by
  rw [natDigits_eq (n * 10) (by omega)]
  congr 1
  · congr 1; omega
  · have : n * 10 % 10 = 0 := by omega
    rw [this]; rfl

theorem pyStrNat_ne_nil (n : Nat) : pyStrNat n ≠ [] := by
  unfold pyStrNat
  split
  · simp
  · rename_i h
    rw [natDigits_eq n h]
    simp

theorem pyStrNat_all_digit (n : Nat) : (pyStrNat n).all Char.isDigit = true := by
  unfold pyStrNat
  rw [List.all_eq_true]
  split
  · intro c hc; rcases List.mem_singleton.mp hc with rfl; decide
  · exact natDigits_all_digit n

theorem digitsVal_pyStrNat (n : Nat) : digitsVal (pyStrNat n) = n := by
  unfold pyStrNat
  split
  · rename_i h; subst h; rfl
  · exact digitsVal_natDigits n

theorem pyStrNat_length_le (n k : Nat) (hk : k ≠ 0) (h : n < 10 ^ k) :
    (pyStrNat n).length ≤ k := by
  unfold pyStrNat
  split
  · simp; omega
  · exact natDigits_length_le n k h

theorem pyInt_digits {ds : PyStr} (h1 : ds ≠ []) (h2 : ds.all Char.isDigit = true) :
    pyInt ds = some ((digitsVal ds : Int)) := by
  have hstrip := pyStrip_digits h2
  rcases ds with _ | ⟨c, cs⟩
  · exact absurd rfl h1
  · have hc : c.isDigit = true := by
      have := List.all_eq_true.mp h2 c (by simp); simpa using this
    have hne1 : c ≠ '-' := isDigit_ne hc (by decide)
    have hne2 : c ≠ '+' := isDigit_ne hc (by decide)
    unfold pyInt
    rw [hstrip]
    simp [hne1, hne2, h2]

theorem pyInt_pyStrNat (n : Nat) : pyInt (pyStrNat n) = some (n : Int) := by
  rw [pyInt_digits (pyStrNat_ne_nil n) (pyStrNat_all_digit n), digitsVal_pyStrNat]

theorem pyInt_pyStrInt (i : Int) : pyInt (pyStrInt i) = some i := by
  unfold pyStrInt
  split
  · rename_i hneg
    have hdig := pyStrNat_all_digit i.natAbs
    have hspace : ∀ c ∈ '-' :: pyStrNat i.natAbs, pySpace c = false := by
      intro c hc
      rcases List.mem_cons.mp hc with rfl | hc
      · decide
      · exact pySpace_false_of_digit (List.all_eq_true.mp hdig c hc)
    have hemp : (pyStrNat i.natAbs).isEmpty = false := by
      rcases h : pyStrNat i.natAbs with _ | _
      · exact absurd h (pyStrNat_ne_nil _)
      · rfl
    have hstep : pyInt ('-' :: pyStrNat i.natAbs)
        = some (-(digitsVal (pyStrNat i.natAbs) : Int)) := by
      unfold pyInt
      rw [pyStrip_eq_self hspace]
      simp [hemp, hdig]
    rw [hstep, digitsVal_pyStrNat]
    congr 1
    omega
  · rename_i hneg
    rw [pyInt_pyStrNat]
    congr 1
    omega

theorem foldSixty_digits {parts : List PyStr}
    (h : ∀ p ∈ parts, p ≠ [] ∧ p.all Char.isDigit = true) :
    ∀ acc : Int, (parts.foldlM (fun acc d => (pyInt d).map (fun n => acc * 60 + n)) acc
      : Option Int) = some (parts.foldl (fun a p => a * 60 + (digitsVal p : Int)) acc) := by
  induction parts with
  | nil => intro acc; rfl
  | cons p ps ih =>
    intro acc
    obtain ⟨hp1, hp2⟩ := h p (by simp)
    rw [List.foldlM_cons, pyInt_digits hp1 hp2]
    simpa using ih (fun q hq => h q (by simp [hq])) (acc * 60 + (digitsVal p : Int))

theorem foldSixty_eq {parts : List PyStr}
    (h : ∀ p ∈ parts, p ≠ [] ∧ p.all Char.isDigit = true) :
    foldSixty parts = some (parts.foldl (fun a p => a * 60 + (digitsVal p : Int)) 0) :=
  foldSixty_digits h 0

theorem not_mem_of_digits {l : PyStr} (h : l.all Char.isDigit = true) {c : Char}
    (hc : c.isDigit = false) : c ∉ l := fun hm => by
  have := List.all_eq_true.mp h c hm
  rw [hc] at this
  exact Bool.noConfusion this

theorem intercalate_cons₂ {α : Type} (sep a : List α) (l : List (List α)) (h : l ≠ []) :
    List.intercalate sep (a :: l) = a ++ sep ++ List.intercalate sep l := by
  rcases l with _ | ⟨b, bs⟩
  · exact absurd rfl h
  · simp [List.intercalate, List.intersperse_cons_cons]

theorem intercalate_one {α : Type} (sep : List α) (a : List α) :
    List.intercalate sep [a] = a := by
  simp [List.intercalate]

theorem mem_intercalate {α : Type} {sep : List α} {x : α} :
    ∀ {parts : List (List α)}, x ∈ List.intercalate sep parts →
      x ∈ sep ∨ ∃ p ∈ parts, x ∈ p := by
  intro parts
  induction parts with
  | nil => intro h; simp [List.intercalate] at h
  | cons a l ih =>
    intro h
    rcases l with _ | ⟨b, bs⟩
    · rw [intercalate_one] at h
      exact Or.inr ⟨a, by simp, h⟩
    · rw [intercalate_cons₂ sep a (b :: bs) (by simp)] at h
      rcases List.mem_append.mp h with h1 | h2
      · rcases List.mem_append.mp h1 with h3 | h4
        · exact Or.inr ⟨a, by simp, h3⟩
        · exact Or.inl h4
      · rcases ih h2 with h3 | ⟨p, hp, hxp⟩
        · exact Or.inl h3
        · exact Or.inr ⟨p, by simp [hp], hxp⟩

theorem intercalate_concat {α : Type} (sep : List α) (l : List (List α)) (a : List α)
    (h : l ≠ []) :
    List.intercalate sep (l ++ [a]) = List.intercalate sep l ++ sep ++ a := by
  induction l with
  | nil => exact absurd rfl h
  | cons b bs ih =>
    rcases bs with _ | ⟨c, cs⟩
    · rw [intercalate_one]
      show List.intercalate sep [b, a] = _
      rw [intercalate_cons₂ sep b [a] (by simp), intercalate_one]
    · rw [show (b :: c :: cs) ++ [a] = b :: ((c :: cs) ++ [a]) from rfl,
        intercalate_cons₂ sep b ((c :: cs) ++ [a]) (by simp),
        intercalate_cons₂ sep b (c :: cs) (by simp), ih (by simp)]
      simp [List.append_assoc]

theorem splitChar_eq_single {c : Char} {l : PyStr} (h : c ∉ l) :
    splitChar c l = [l] := by
  unfold splitChar List.splitOn
  exact List.splitOnP_eq_single _ _ (fun x hx => by
    simp only [beq_iff_eq]
    exact fun e => h (e ▸ hx))

theorem splitChar_first {c : Char} {l₁ l₂ : PyStr} (h : c ∉ l₁) :
    splitChar c (l₁ ++ c :: l₂) = l₁ :: splitChar c l₂ := by
  unfold splitChar List.splitOn
  exact List.splitOnP_first _ _ (fun x hx => by
    simp only [beq_iff_eq]
    exact fun e => h (e ▸ hx)) c (by simp) l₂

theorem splitChar_intercalate {c : Char} {parts : List PyStr} (h1 : parts ≠ [])
    (h2 : ∀ p ∈ parts, c ∉ p) :
    splitChar c (List.intercalate [c] parts) = parts :=
  List.splitOn_intercalate parts c h2 h1

theorem map_replaceDot_eq_self {l : PyStr} (h : '.' ∉ l) :
    l.map (fun ch => if ch = '.' then ',' else ch) = l := by
  induction l with
  | nil => rfl
  | cons a as ih =>
    have ha : a ≠ '.' := fun e => h (e ▸ List.mem_cons_self a as)
    simp only [List.map_cons, if_neg ha]
    rw [ih (fun hm => h (List.mem_cons_of_mem a hm))]

theorem not_mem_intercalate_colon {cs : List PyStr}
    (h : ∀ p ∈ cs, p.all Char.isDigit = true) {c : Char} (hc : c.isDigit = false)
    (hcc : c ≠ ':') : c ∉ List.intercalate [':'] cs := fun hm => by
  rcases mem_intercalate hm with h1 | ⟨p, hp, hxp⟩
  · exact hcc (List.mem_singleton.mp h1)
  · exact not_mem_of_digits (h p hp) hc hxp

/-- Core parsing lemma for `total_ms`: on a string made of colon-separated
integer-literal components followed by a millisecond component after a `,`,
`.` or trailing-`:` separator, the result is the left-to-right base-60 fold
of the components, times 1000, plus the millisecond component. -/
theorem total_ms_intercalate (cs : List PyStr) (ms : PyStr) (sep : Char)
    (hsep : sep = ',' ∨ sep = '.' ∨ sep = ':')
    (hne : cs ≠ [])
    (hcs : ∀ p ∈ cs, p ≠ [] ∧ p.all Char.isDigit = true)
    (hms1 : ms ≠ []) (hms2 : ms.all Char.isDigit = true) :
    total_ms (List.intercalate [':'] cs ++ sep :: ms) =
      some ((cs.foldl (fun a p => a * 60 + (digitsVal p : Int)) 0) * 1000
        + (digitsVal ms : Int)) := by
  have hcs2 : ∀ p ∈ cs, p.all Char.isDigit = true := fun p hp => (hcs p hp).2
  have hSdot : '.' ∉ List.intercalate [':'] cs :=
    not_mem_intercalate_colon hcs2 (by decide) (by decide)
  have hScomma : ',' ∉ List.intercalate [':'] cs :=
    not_mem_intercalate_colon hcs2 (by decide) (by decide)
  have hmsdot : '.' ∉ ms := not_mem_of_digits hms2 (by decide)
  have hmscomma : ',' ∉ ms := not_mem_of_digits hms2 (by decide)
  have hmscolon : ':' ∉ ms := not_mem_of_digits hms2 (by decide)
  have hcolon : ∀ p ∈ cs, ':' ∉ p := fun p hp =>
    not_mem_of_digits (hcs2 p hp) (by decide)
  have hbranch : (foldSixty (splitChar ':' (List.intercalate [':'] cs))).bind
      (fun secs => (pyInt ms).map (fun m => secs * 1000 + m)) =
      some ((cs.foldl (fun a p => a * 60 + (digitsVal p : Int)) 0) * 1000
        + (digitsVal ms : Int)) := by
    rw [splitChar_intercalate hne hcolon, foldSixty_eq hcs, pyInt_digits hms1 hms2]
    rfl
  rcases hsep with rfl | rfl | rfl
  · -- separator `,`
    have hrepl : (List.intercalate [':'] cs ++ ',' :: ms).map
        (fun ch => if ch = '.' then ',' else ch) = List.intercalate [':'] cs ++ ',' :: ms := by
      rw [List.map_append, List.map_cons, map_replaceDot_eq_self hSdot,
        map_replaceDot_eq_self hmsdot]
      rfl
    have hsplit : rsplitOnce ',' (List.intercalate [':'] cs ++ ',' :: ms) =
        some (List.intercalate [':'] cs, ms) := by
      unfold rsplitOnce
      rw [splitChar_first hScomma, splitChar_eq_single hmscomma]
      simp [intercalate_one]
    simp only [total_ms]
    rw [hrepl, hsplit]
    exact hbranch
  · -- separator `.`
    have hrepl : (List.intercalate [':'] cs ++ '.' :: ms).map
        (fun ch => if ch = '.' then ',' else ch) = List.intercalate [':'] cs ++ ',' :: ms := by
      rw [List.map_append, List.map_cons, map_replaceDot_eq_self hSdot,
        map_replaceDot_eq_self hmsdot]
      rfl
    have hsplit : rsplitOnce ',' (List.intercalate [':'] cs ++ ',' :: ms) =
        some (List.intercalate [':'] cs, ms) := by
      unfold rsplitOnce
      rw [splitChar_first hScomma, splitChar_eq_single hmscomma]
      simp [intercalate_one]
    simp only [total_ms]
    rw [hrepl, hsplit]
    exact hbranch
  · -- trailing `:` separator
    have hwhole : List.intercalate [':'] cs ++ ':' :: ms =
        List.intercalate [':'] (cs ++ [ms]) := by
      rw [intercalate_concat [':'] cs ms hne]
      simp
    have hnocomma : ',' ∉ List.intercalate [':'] cs ++ ':' :: ms := by
      intro hm
      rcases List.mem_append.mp hm with h1 | h2
      · exact hScomma h1
      · rcases List.mem_cons.mp h2 with h3 | h4
        · exact absurd h3 (by decide)
        · exact hmscomma h4
    have hnodot : '.' ∉ List.intercalate [':'] cs ++ ':' :: ms := by
      intro hm
      rcases List.mem_append.mp hm with h1 | h2
      · exact hSdot h1
      · rcases List.mem_cons.mp h2 with h3 | h4
        · exact absurd h3 (by decide)
        · exact hmsdot h4
    have hrepl : (List.intercalate [':'] cs ++ ':' :: ms).map
        (fun ch => if ch = '.' then ',' else ch) =
        List.intercalate [':'] cs ++ ':' :: ms := map_replaceDot_eq_self hnodot
    have hsplit1 : rsplitOnce ',' (List.intercalate [':'] cs ++ ':' :: ms) = none := by
      unfold rsplitOnce
      rw [splitChar_eq_single hnocomma]
      rfl
    have hall : ∀ p ∈ cs ++ [ms], ':' ∉ p := by
      intro p hp
      rcases List.mem_append.mp hp with h1 | h2
      · exact hcolon p h1
      · rcases List.mem_singleton.mp h2 with rfl
        exact hmscolon
    have hsplit2 : rsplitOnce ':' (List.intercalate [':'] cs ++ ':' :: ms) =
        some (List.intercalate [':'] cs, ms) := by
      unfold rsplitOnce
      rw [hwhole, splitChar_intercalate (by simp) hall]
      have hlen : ¬((cs ++ [ms]).length < 2) := by
        rcases cs with _ | ⟨x, xs⟩
        · exact absurd rfl hne
        · have : (x :: xs ++ [ms]).length = xs.length + 2 := by simp
          omega
      rw [if_neg hlen]
      congr 1
      rw [List.dropLast_concat, List.getLastD_concat]
    simp only [total_ms]
    rw [hrepl, hsplit1, hsplit2]
    exact hbranch

/-- `total_ms` raises when the input has no `,`, `.` or `:` at all: both
unpacking attempts fail with a `ValueError`. -/
theorem total_ms_none_of_no_sep {ts : PyStr} (h1 : ',' ∉ ts) (h2 : '.' ∉ ts)
    (h3 : ':' ∉ ts) : total_ms ts = none := by
  have hrepl : ts.map (fun ch => if ch = '.' then ',' else ch) = ts :=
    map_replaceDot_eq_self h2
  have e1 : rsplitOnce ',' ts = none := by
    unfold rsplitOnce
    rw [splitChar_eq_single h1]
    rfl
  have e2 : rsplitOnce ':' ts = none := by
    unfold rsplitOnce
    rw [splitChar_eq_single h3]
    rfl
  simp only [total_ms]
  rw [hrepl, e1, e2]

/-- C1: for every timestamp string built from colon-separated integer-literal
components followed by a `,`, `.` or trailing-`:` millisecond separator and a
millisecond component, `total_ms` returns the left-to-right fold
`acc = acc*60 + component` over the components, multiplied by 1000, plus the
millisecond component — the components (in particular the hour) may have any
number of digits and any magnitude; in particular
`total_ms("1:20:32,005") = 4832005` and
`total_seconds("1:20:32,5") = "4832.005"`. -/
theorem total_ms_mixed_radix_fold :
    (∀ (cs : List PyStr) (ms : PyStr) (sep : Char),
      (sep = ',' ∨ sep = '.' ∨ sep = ':') → cs ≠ [] →
      (∀ p ∈ cs, p ≠ [] ∧ p.all Char.isDigit = true) →
      ms ≠ [] → ms.all Char.isDigit = true →
      total_ms (List.intercalate [':'] cs ++ sep :: ms) =
        some ((cs.foldl (fun a p => a * 60 + (digitsVal p : Int)) 0) * 1000
          + (digitsVal ms : Int)))
    ∧ total_ms "1:20:32,005".toList = some 4832005
    ∧ total_seconds "1:20:32,5".toList = some "4832.005".toList :=
  ⟨fun cs ms sep h1 h2 h3 h4 h5 => total_ms_intercalate cs ms sep h1 h2 h3 h4 h5,
    by decide, by decide⟩

/-- Witness for `total_ms_mixed_radix_fold` at the concrete input
`"1:20:32" ++ "," ++ "005"`, with hours of two digits or fewer; the 100-hour
component case is also exercised (`["100", "00", "00"]`). -/
theorem total_ms_mixed_radix_fold_witness :
    total_ms (List.intercalate [':'] ["1".toList, "20".toList, "32".toList]
        ++ ',' :: "005".toList)
      = some ((["1".toList, "20".toList, "32".toList].foldl
          (fun a p => a * 60 + (digitsVal p : Int)) 0) * 1000
        + (digitsVal "005".toList : Int))
    ∧ total_ms (List.intercalate [':'] ["100".toList, "00".toList, "00".toList]
        ++ ':' :: "1".toList)
      = some ((["100".toList, "00".toList, "00".toList].foldl
          (fun a p => a * 60 + (digitsVal p : Int)) 0) * 1000
        + (digitsVal "1".toList : Int)) :=
  ⟨total_ms_mixed_radix_fold.1 ["1".toList, "20".toList, "32".toList] "005".toList ','
      (Or.inl rfl) (by decide) (by decide) (by decide) (by decide),
    total_ms_mixed_radix_fold.1 ["100".toList, "00".toList, "00".toList] "1".toList ':'
      (Or.inr (Or.inr rfl)) (by decide) (by decide) (by decide) (by decide)⟩

/-- C10 counterexample: `"1:2:3,x"` contains a recognizable millisecond
separator (a comma), yet `total_ms` raises (`int("x")` fails), refuting
“for every input containing such a separator, parsing succeeds”. -/
theorem total_ms_separator_only_counterexample :
    (',' ∈ "1:2:3,x".toList) ∧ total_ms "1:2:3,x".toList = none := by
  exact ⟨by decide, by decide⟩

/-- C10 (amended): `total_ms` raises a parse failure whenever the input
contains no recognizable separator (no `,`, `.`, or `:`); conversely, for
every input with such a separator whose colon components and millisecond part
are integer literals, parsing succeeds — including components outside
conventional ranges, such as the sentinel `"99:99:99,999"` used as
`second_end` in `cut_transcript_in_middle`. -/
theorem total_ms_parse_failure_iff_sep :
    (∀ ts : PyStr, ',' ∉ ts → '.' ∉ ts → ':' ∉ ts → total_ms ts = none)
    ∧ (∀ (cs : List PyStr) (ms : PyStr) (sep : Char),
        (sep = ',' ∨ sep = '.' ∨ sep = ':') → cs ≠ [] →
        (∀ p ∈ cs, p ≠ [] ∧ p.all Char.isDigit = true) →
        ms ≠ [] → ms.all Char.isDigit = true →
        (total_ms (List.intercalate [':'] cs ++ sep :: ms)).isSome = true)
    ∧ total_ms "99:99:99,999".toList = some 362439999 :=
  ⟨fun ts h1 h2 h3 => total_ms_none_of_no_sep h1 h2 h3,
    fun cs ms sep h1 h2 h3 h4 h5 => by
      rw [total_ms_intercalate cs ms sep h1 h2 h3 h4 h5]; rfl,
    by decide⟩

/-- Witness for `total_ms_parse_failure_iff_sep`: the separator-free string
`"abc"` raises, and the out-of-range sentinel parses. -/
theorem total_ms_parse_failure_iff_sep_witness :
    total_ms "abc".toList = none
    ∧ (total_ms (List.intercalate [':'] ["99".toList, "99".toList, "99".toList]
        ++ ',' :: "999".toList)).isSome = true :=
  ⟨total_ms_parse_failure_iff_sep.1 "abc".toList (by decide) (by decide) (by decide),
    total_ms_parse_failure_iff_sep.2.1 ["99".toList, "99".toList, "99".toList]
      "999".toList ',' (Or.inl rfl) (by decide) (by decide) (by decide) (by decide)⟩

/-! ### The `timestamp` round trip (claim C5) -/

theorem map_eq_self {f : Char → Char} : ∀ {l : PyStr}, (∀ x ∈ l, f x = x) →
    l.map f = l := by
  intro l h
  induction l with
  | nil => rfl
  | cons a as ih =>
    simp only [List.map_cons, h a (List.mem_cons_self a as)]
    rw [ih (fun x hx => h x (List.mem_cons_of_mem a hx))]

theorem roundHalfEven_intCast (k : Int) : roundHalfEven ((k : ℚ)) = k := by
  have hf : Rat.floor ((k : ℚ)) = k := by
    have h0 : Rat.floor ((k : ℚ)) = ⌊(k : ℚ)⌋ := rfl
    rw [h0, Int.floor_intCast]
  simp only [roundHalfEven, hf]
  norm_num

theorem pyStrInt_natCast (n : Nat) : pyStrInt ((n : Int)) = pyStrNat n := by
  unfold pyStrInt
  rw [if_neg (by omega : ¬((n : Int) < 0))]
  congr 1

theorem fdiv_natCast (a b : Nat) : Int.fdiv ((a : Int)) ((b : Int)) = ((a / b : Nat) : Int) :=
  (Int.ofNat_fdiv a b).symm

theorem fmod_natCast (a b : Nat) : Int.fmod ((a : Int)) ((b : Int)) = ((a % b : Nat) : Int) :=
  (Int.ofNat_fmod a b).symm

theorem padZeroLeft_all_digit {s : PyStr} (h : s.all Char.isDigit = true) (n : Nat) :
    (padZeroLeft n s).all Char.isDigit = true := by
  unfold padZeroLeft
  rw [List.all_append, h]
  have : (List.replicate (n - s.length) '0').all Char.isDigit = true := by
    rw [List.all_eq_true]
    intro c hc
    rcases List.eq_of_mem_replicate hc with rfl
    decide
  rw [this]
  rfl

theorem padZeroLeft_ne_nil {s : PyStr} (h : s ≠ []) (n : Nat) :
    padZeroLeft n s ≠ [] := by
  unfold padZeroLeft
  intro he
  rcases List.append_eq_nil.mp he with ⟨_, h2⟩
  exact h h2

theorem digitsVal_padZeroLeft (n : Nat) (s : PyStr) :
    digitsVal (padZeroLeft n s) = digitsVal s := digitsVal_replicate_zero _ _

theorem pyStrNat_mul1000 (r : Nat) (h : r ≠ 0) :
    pyStrNat (r * 1000) = pyStrNat r ++ ['0', '0', '0'] := by
  unfold pyStrNat
  rw [if_neg (by omega : ¬(r * 1000 = 0)), if_neg h]
  have e1 : r * 1000 = r * 10 * 10 * 10 := by ring
  rw [e1, natDigits_mul10 _ (by omega), natDigits_mul10 _ (by omega),
    natDigits_mul10 _ h]
  simp

theorem padZeroLeft_six_mul1000 (r : Nat) (h : r ≠ 0) :
    padZeroLeft 6 (pyStrNat (r * 1000)) = padZeroLeft 3 (pyStrNat r) ++ ['0', '0', '0'] := by
  rw [pyStrNat_mul1000 r h]
  unfold padZeroLeft
  rw [List.length_append]
  have e : 6 - ((pyStrNat r).length + ['0', '0', '0'].length) = 3 - (pyStrNat r).length := by
    simp only [List.length_cons, List.length_nil]
    omega
  rw [e, ← List.append_assoc]

theorem intercalate_three (c : Char) (x y z : PyStr) :
    List.intercalate [c] [x, y, z] = x ++ c :: y ++ c :: z := by
  rw [intercalate_cons₂ [c] x [y, z] (by simp),
    intercalate_cons₂ [c] y [z] (by simp), intercalate_one]
  simp [List.append_assoc]

/-- For a whole-millisecond duration below one day with a nonzero millisecond
remainder, `timestamp` renders `H:MM:SS.mmm` (hours unpadded, minutes/seconds
two-digit zero-padded, milliseconds three-digit zero-padded). -/
theorem timestamp_formats (ms : Nat) (h1 : ms % 1000 ≠ 0) (h2 : ms < 86400000) :
    timestamp ((ms : ℚ) / 1000) =
      List.intercalate [':'] [pyStrNat (ms / 1000 / 3600),
        padZeroLeft 2 (pyStrNat (ms / 1000 / 60 % 60)),
        padZeroLeft 2 (pyStrNat (ms / 1000 % 60))]
      ++ '.' :: padZeroLeft 3 (pyStrNat (ms % 1000)) := by
  have hq : (ms : ℚ) / 1000 * 1000000 = (((ms * 1000 : Nat) : Int) : ℚ) := by
    push_cast
    ring
  have hround : roundHalfEven ((ms : ℚ) / 1000 * 1000000) = ((ms * 1000 : Nat) : Int) := by
    rw [hq, roundHalfEven_intCast]
  set u : Nat := ms * 1000 with hu
  have hulit : ((86400000000 : Int)) = ((86400000000 : Nat) : Int) := rfl
  have humod : u % 86400000000 = u := Nat.mod_eq_of_lt (by omega)
  have hdays : Int.fdiv ((u : Int)) 86400000000 = 0 := by
    rw [hulit, fdiv_natCast]
    rw [Nat.div_eq_of_lt (by omega)]
    rfl
  have hrem : Int.fmod ((u : Int)) 86400000000 = ((u : Int)) := by
    rw [hulit, fmod_natCast, humod]
  have hsecs : Int.fdiv ((u : Int)) 1000000 = (((ms / 1000 : Nat)) : Int) := by
    rw [show ((1000000 : Int)) = ((1000000 : Nat) : Int) from rfl, fdiv_natCast]
    congr 1
    omega
  have hmicro : Int.fmod ((u : Int)) 1000000 = (((ms % 1000) * 1000 : Nat) : Int) := by
    rw [show ((1000000 : Int)) = ((1000000 : Nat) : Int) from rfl, fmod_natCast]
    congr 1
    omega
  have hmm0 : Int.fdiv (((ms / 1000 : Nat) : Int)) 60 = (((ms / 1000 / 60 : Nat)) : Int) := by
    rw [show ((60 : Int)) = ((60 : Nat) : Int) from rfl, fdiv_natCast]
  have hss : Int.fmod (((ms / 1000 : Nat) : Int)) 60 = (((ms / 1000 % 60 : Nat)) : Int) := by
    rw [show ((60 : Int)) = ((60 : Nat) : Int) from rfl, fmod_natCast]
  have hhh : Int.fdiv (((ms / 1000 / 60 : Nat) : Int)) 60
      = (((ms / 1000 / 3600 : Nat)) : Int) := by
    rw [show ((60 : Int)) = ((60 : Nat) : Int) from rfl, fdiv_natCast]
    congr 1
    omega
  have hmm : Int.fmod (((ms / 1000 / 60 : Nat) : Int)) 60
      = (((ms / 1000 / 60 % 60 : Nat)) : Int) := by
    rw [show ((60 : Int)) = ((60 : Nat) : Int) from rfl, fmod_natCast]
  have hmicro_ne : ¬((((ms % 1000) * 1000 : Nat) : Int) = 0) := by
    omega
  have hdelta : timedeltaStr ((u : Int)) =
      (List.intercalate [':'] [pyStrNat (ms / 1000 / 3600),
        padZeroLeft 2 (pyStrNat (ms / 1000 / 60 % 60)),
        padZeroLeft 2 (pyStrNat (ms / 1000 % 60))]
       ++ '.' :: padZeroLeft 3 (pyStrNat (ms % 1000))) ++ ['0', '0', '0'] := by
    simp only [timedeltaStr, hdays, hrem, hsecs, hmicro, hmm0, hss, hhh, hmm]
    rw [if_pos hmicro_ne, if_neg (show ¬((0 : Int) ≠ 0) from by simp)]
    rw [pyStrInt_natCast, pyStrInt_natCast, pyStrInt_natCast, pyStrInt_natCast,
      padZeroLeft_six_mul1000 (ms % 1000) h1, intercalate_three]
    simp [List.append_assoc]
  simp only [timestamp, hround, hdelta]
  have hc : ((List.intercalate [':'] [pyStrNat (ms / 1000 / 3600),
        padZeroLeft 2 (pyStrNat (ms / 1000 / 60 % 60)),
        padZeroLeft 2 (pyStrNat (ms / 1000 % 60))]
       ++ '.' :: padZeroLeft 3 (pyStrNat (ms % 1000))) ++ ['0', '0', '0']).contains '.'
      = true := by
    simp
  rw [if_pos hc]
  have htake : ∀ X : PyStr,
      (X ++ ['0', '0', '0']).take ((X ++ ['0', '0', '0']).length - 3) = X := by
    intro X
    rw [List.length_append, show (['0', '0', '0'] : PyStr).length = 3 from rfl,
      show X.length + 3 - 3 = X.length from by omega]
    exact List.take_left X ['0', '0', '0']
  exact htake _

/-- C5 counterexample: for the whole-second value `ms = 1000` the formatted
timestamp is `"0:00:01"` (the microsecond field is zero, so `str(timedelta)`
emits no fractional part at all), and re-parsing takes the final `":01"` as
the millisecond field: `total_ms(timestamp(1000 / 1000)) = 1 ≠ 1000`. -/
theorem timestamp_roundtrip_counterexample :
    timestamp ((1000 : ℚ) / 1000) = "0:00:01".toList
    ∧ total_ms (timestamp ((1000 : ℚ) / 1000)) = some 1
    ∧ (1 : Int) ≠ (1000 : Int) := by
  have h1 : (1000 : ℚ) / 1000 * 1000000 = ((1000000 : Int) : ℚ) := by norm_num
  have h2 : timestamp ((1000 : ℚ) / 1000) = "0:00:01".toList := by
    simp only [timestamp, h1, roundHalfEven_intCast]
    decide
  refine ⟨h2, ?_, by decide⟩
  rw [h2]
  decide

/-- C5 (amended): for every millisecond count `ms` with a nonzero millisecond
remainder (`ms % 1000 ≠ 0`) and below one day (`ms < 86400000`), parsing the
formatted rendering recovers `ms` exactly, and this holds for all three
accepted millisecond separators substituted on the parse side (whole-second
values format without a fractional part and re-parse incorrectly, and values
of a day or more format with a `"D day[s], "` prefix that does not parse; see
the counterexample). -/
theorem timestamp_total_ms_roundtrip (ms : Nat) (h1 : ms % 1000 ≠ 0)
    (h2 : ms < 86400000) (sep : Char) (hsep : sep = ',' ∨ sep = '.' ∨ sep = ':') :
    total_ms ((timestamp ((ms : ℚ) / 1000)).map
      (fun c => if c = '.' then sep else c)) = some ((ms : Int)) := by
  rw [timestamp_formats ms h1 h2]
  have hall : ∀ p ∈ [pyStrNat (ms / 1000 / 3600),
      padZeroLeft 2 (pyStrNat (ms / 1000 / 60 % 60)),
      padZeroLeft 2 (pyStrNat (ms / 1000 % 60))], p ≠ [] ∧ p.all Char.isDigit = true := by
    intro p hp
    fin_cases hp
    · exact ⟨pyStrNat_ne_nil _, pyStrNat_all_digit _⟩
    · exact ⟨padZeroLeft_ne_nil (pyStrNat_ne_nil _) 2,
        padZeroLeft_all_digit (pyStrNat_all_digit _) 2⟩
    · exact ⟨padZeroLeft_ne_nil (pyStrNat_ne_nil _) 2,
        padZeroLeft_all_digit (pyStrNat_all_digit _) 2⟩
  have hP3dig : (padZeroLeft 3 (pyStrNat (ms % 1000))).all Char.isDigit = true :=
    padZeroLeft_all_digit (pyStrNat_all_digit _) 3
  have hAnodot : '.' ∉ List.intercalate [':'] [pyStrNat (ms / 1000 / 3600),
      padZeroLeft 2 (pyStrNat (ms / 1000 / 60 % 60)),
      padZeroLeft 2 (pyStrNat (ms / 1000 % 60))] :=
    not_mem_intercalate_colon (fun p hp => (hall p hp).2) (by decide) (by decide)
  have hP3nodot : '.' ∉ padZeroLeft 3 (pyStrNat (ms % 1000)) :=
    not_mem_of_digits hP3dig (by decide)
  rw [List.map_append, List.map_cons,
    map_eq_self (fun x hx => if_neg (fun e => hAnodot (by rw [← e]; exact hx))),
    map_eq_self (fun x hx => if_neg (fun e => hP3nodot (by rw [← e]; exact hx))),
    if_pos rfl,
    total_ms_intercalate _ _ sep hsep (by simp) hall
      (padZeroLeft_ne_nil (pyStrNat_ne_nil _) 3) hP3dig]
  congr 1
  simp only [List.foldl_cons, List.foldl_nil, digitsVal_padZeroLeft, digitsVal_pyStrNat]
  push_cast
  omega

/-- Witness for `timestamp_total_ms_roundtrip` at `ms = 4832005` with the
comma separator substituted on the parse side. -/
theorem timestamp_total_ms_roundtrip_witness :
    total_ms ((timestamp (((4832005 : Nat) : ℚ) / 1000)).map
      (fun c => if c = '.' then ',' else c)) = some ((4832005 : Nat) : Int) :=
  timestamp_total_ms_roundtrip 4832005 (by decide) (by decide) ','
    (Or.inl rfl)

/-! ### Caption-block round trip, insertion renumbering, short blocks -/

theorem newline_not_mem_pyStrInt (i : Int) : '\n' ∉ pyStrInt i := by
  unfold pyStrInt
  split
  · intro hm
    rcases List.mem_cons.mp hm with h | h
    · exact absurd h (by decide)
    · exact not_mem_of_digits (pyStrNat_all_digit _) (by decide) h
  · exact not_mem_of_digits (pyStrNat_all_digit _) (by decide)

/-- C6: serialising a caption block, re-parsing it and serialising again is
the identity on the serialised text; the re-parsed block preserves
`time_range` and `dialogue` exactly (the parse returns the very same block),
and the block's index is `int(s)` when the original index string `s` is a
valid integer literal and 0 otherwise. -/
theorem serialize_parse_roundtrip (s tr : PyStr) (dia : List PyStr)
    (htr : '\n' ∉ tr) (hdia : ∀ d ∈ dia, '\n' ∉ d)
    (hstrip : pyStrip (SRTLine.serialize (SRTLine.mkFromStr s tr dia))
      = SRTLine.serialize (SRTLine.mkFromStr s tr dia)) :
    SRTLine.parseStr (SRTLine.serialize (SRTLine.mkFromStr s tr dia))
      = some (SRTLine.mkFromStr s tr dia)
    ∧ (SRTLine.parseStr (SRTLine.serialize (SRTLine.mkFromStr s tr dia))).map
        SRTLine.serialize = some (SRTLine.serialize (SRTLine.mkFromStr s tr dia))
    ∧ (SRTLine.mkFromStr s tr dia).num = (pyInt s).getD 0 := by
  have hparts : ∀ p ∈ pyStrInt ((pyInt s).getD 0) :: tr :: dia, '\n' ∉ p := by
    intro p hp
    rcases List.mem_cons.mp hp with rfl | hp
    · exact newline_not_mem_pyStrInt _
    · rcases List.mem_cons.mp hp with rfl | hp
      · exact htr
      · exact hdia p hp
  have hparse : SRTLine.parseStr (SRTLine.serialize (SRTLine.mkFromStr s tr dia))
      = some (SRTLine.mkFromStr s tr dia) := by
    unfold SRTLine.parseStr
    rw [hstrip]
    show SRTLine.parseLines (splitChar '\n'
      (List.intercalate ['\n'] (pyStrInt ((pyInt s).getD 0) :: tr :: dia))) = _
    rw [splitChar_intercalate (by simp) hparts]
    show some (SRTLine.mkFromStr (pyStrInt ((pyInt s).getD 0)) tr dia) = _
    unfold SRTLine.mkFromStr
    rw [pyInt_pyStrInt]
    rfl
  exact ⟨hparse, by rw [hparse]; rfl, rfl⟩

/-- Witness for `serialize_parse_roundtrip` on a concrete block with index
`"12"`, a timing line and one dialogue line. -/
theorem serialize_parse_roundtrip_witness :
    SRTLine.parseStr (SRTLine.serialize (SRTLine.mkFromStr "12".toList
        "0:00:01,000 --> 0:00:02,000".toList ["abc".toList]))
      = some (SRTLine.mkFromStr "12".toList
        "0:00:01,000 --> 0:00:02,000".toList ["abc".toList]) :=
  (serialize_parse_roundtrip "12".toList "0:00:01,000 --> 0:00:02,000".toList
    ["abc".toList] (by decide) (by decide) (by decide)).1

/-- C7 counterexample: `"0"` is a valid integer string, so by the claim an
insertion at position 0 should increment that block's index by exactly 1
(to 1); but `if not rem_lines.num` is true for the integer 0, so the block is
reset to `0 + 1` and then incremented, ending at 2. -/
theorem insert_renumber_counterexample :
    pyInt "0".toList = some 0
    ∧ (SRTLine.mkFromStr "0".toList [] []).num = 0
    ∧ ListOfSRTLine.insert [SRTLine.mkFromStr "0".toList [] []] 0
        (SRTLine.mkFromStr "9".toList [] [])
      = [SRTLine.mkFromStr "9".toList [] [],
          { num := 2, time_range := [], dialogue := [] }]
    ∧ (2 : Int) ≠ (0 : Int) + 1 := by
  refine ⟨by decide, by decide, by decide, by decide⟩

/-- C7 (amended): `insert l i b` keeps blocks before position `i` untouched,
puts `b` itself (index unchanged) at position `i`, and shifts every block
previously at a position `≥ i` one place right with its index incremented by
1 — except that a block whose current index is 0 (which is the case exactly
when its original index string failed to parse as an integer, was empty, or
was literally `"0"`) is first reset to `i + 1` and then incremented, ending
at `i + 2`. -/
theorem insert_renumber (l : List SRTLine) (i : Nat) (b : SRTLine)
    (hi : i ≤ l.length) :
    (ListOfSRTLine.insert l i b).length = l.length + 1
    ∧ (∀ j, j < i → (ListOfSRTLine.insert l i b)[j]? = l[j]?)
    ∧ (ListOfSRTLine.insert l i b)[i]? = some b
    ∧ (∀ j, i ≤ j → j < l.length →
        (ListOfSRTLine.insert l i b)[j + 1]? =
          (l[j]?).map (fun x =>
            if x.num = 0 then { x with num := ((i : Int) + 1) + 1 }
            else { x with num := x.num + 1 })) := by
  simp only [ListOfSRTLine.insert]
  have hlt : (l.take i).length = i := by
    rw [List.length_take]
    omega
  refine ⟨?_, ?_, ?_, ?_⟩
  · simp only [List.length_append, List.length_cons, List.length_map,
      List.length_drop, hlt]
    omega
  · intro j hj
    rw [List.getElem?_append_left (by omega)]
    exact List.getElem?_take_of_lt hj
  · rw [List.getElem?_append_right (by omega), hlt]
    simp
  · intro j hij hjl
    rw [List.getElem?_append_right (by omega), hlt]
    have : j + 1 - i = (j - i) + 1 := by omega
    rw [this]
    simp only [List.getElem?_cons_succ, List.getElem?_map, List.getElem?_drop]
    have : i + (j - i) = j := by omega
    rw [this]

/-- Witness for `insert_renumber`: inserting at position 1 of a two-block
list whose second block has index 0. -/
theorem insert_renumber_witness :
    (ListOfSRTLine.insert [⟨5, [], []⟩, ⟨0, [], []⟩] 1 ⟨9, [], []⟩).length = 3
    ∧ (∀ j, j < 1 →
        (ListOfSRTLine.insert [⟨5, [], []⟩, ⟨0, [], []⟩] 1 ⟨9, [], []⟩)[j]?
          = [(⟨5, [], []⟩ : SRTLine), ⟨0, [], []⟩][j]?)
    ∧ (ListOfSRTLine.insert [⟨5, [], []⟩, ⟨0, [], []⟩] 1 ⟨9, [], []⟩)[1]?
        = some ⟨9, [], []⟩
    ∧ (∀ j, 1 ≤ j → j < 2 →
        (ListOfSRTLine.insert [⟨5, [], []⟩, ⟨0, [], []⟩] 1 ⟨9, [], []⟩)[j + 1]? =
          ([(⟨5, [], []⟩ : SRTLine), ⟨0, [], []⟩][j]?).map (fun x =>
            if x.num = 0 then { x with num := ((1 : Nat) : Int) + 1 + 1 }
            else { x with num := x.num + 1 })) :=
  insert_renumber [⟨5, [], []⟩, ⟨0, [], []⟩] 1 ⟨9, [], []⟩ (by decide)

/-- C9 counterexample: the parser does not tolerate a block of fewer than two
lines — `SRTLine.parse('')` raises a `ValueError` from tuple unpacking
(modelled as `none`), so no block with empty fields is produced. -/
theorem parse_empty_counterexample :
    SRTLine.parseStr [] = none
    ∧ ¬∃ b : SRTLine, SRTLine.parseStr [] = some b ∧ b.time_range = []
      ∧ b.dialogue = [] := by
  have h : SRTLine.parseStr [] = none := by decide
  refine ⟨h, ?_⟩
  rintro ⟨b, hb, _, _⟩
  rw [h] at hb
  exact Option.noConfusion hb

/-- C9 (amended): a block input of fewer than 2 lines makes the caption block
parser raise a `ValueError` (propagated to the caller, e.g. out of
`ListOfSRTLine.__init__`); only inputs whose (stripped, newline-split) line
list has at least an index line and a timing line parse, with the remaining
lines as dialogue (empty for a 2-line block). -/
theorem parse_short_block_raises :
    (∀ lines : List PyStr, lines.length < 2 → SRTLine.parseLines lines = none)
    ∧ (∀ s : PyStr, (splitChar '\n' (pyStrip s)).length < 2 →
        SRTLine.parseStr s = none)
    ∧ (∀ (a b : PyStr) (rest : List PyStr),
        SRTLine.parseLines (a :: b :: rest) = some (SRTLine.mkFromStr a b rest)) := by
  have h1 : ∀ lines : List PyStr, lines.length < 2 → SRTLine.parseLines lines = none := by
    intro lines h
    match lines with
    | [] => rfl
    | [a] => rfl
    | a :: b :: rest => simp at h; omega
  exact ⟨h1, fun s h => h1 _ h, fun a b rest => rfl⟩

/-- Witness for `parse_short_block_raises` at the empty line list and the
empty chunk. -/
theorem parse_short_block_raises_witness :
    SRTLine.parseLines [] = none ∧ SRTLine.parseStr "".toList = none :=
  ⟨parse_short_block_raises.1 [] (by decide),
    parse_short_block_raises.2.1 "".toList (by decide)⟩

/-! ### Structure of well-formed SRT files -/

theorem wfBlocks_cons {b : RawBlock} {bs : List RawBlock} (h : wfBlocks (b :: bs)) :
    wfBlock b ∧ wfBlocks bs :=
  ⟨h b (by simp), fun x hx => h x (by simp [hx])⟩

theorem wfBlocks_concat {bs : List RawBlock} {b : RawBlock} (h : wfBlocks (bs ++ [b])) :
    wfBlocks bs ∧ wfBlock b :=
  ⟨fun x hx => h x (by simp [hx]), h b (by simp)⟩

theorem blockLines_ne_nil (b : RawBlock) : blockLines b ≠ [] := by
  unfold blockLines
  simp

theorem srtLines_single (b : RawBlock) : srtLines [b] = blockLines b := by
  unfold srtLines
  rw [List.map_cons, List.map_nil, intercalate_one]

theorem srtLines_cons (b : RawBlock) (bs : List RawBlock) (h : bs ≠ []) :
    srtLines (b :: bs) = blockLines b ++ [] :: srtLines bs := by
  unfold srtLines
  rw [List.map_cons, intercalate_cons₂ _ _ _ (by simpa using h)]
  simp

theorem srtLines_concat (bs : List RawBlock) (b : RawBlock) (h : bs ≠ []) :
    srtLines (bs ++ [b]) = srtLines bs ++ [] :: blockLines b := by
  unfold srtLines
  rw [List.map_append, List.map_singleton,
    intercalate_concat _ _ _ (by simpa using h)]
  simp

theorem srtLines_ne_nil {bs : List RawBlock} (h : bs ≠ []) : srtLines bs ≠ [] := by
  rcases bs with _ | ⟨b, bs⟩
  · exact absurd rfl h
  · rcases bs with _ | ⟨c, cs⟩
    · rw [srtLines_single]; exact blockLines_ne_nil b
    · rw [srtLines_cons b (c :: cs) (by simp)]
      have := blockLines_ne_nil b
      intro he
      rcases List.append_eq_nil.mp he with ⟨h1, _⟩
      exact this h1

theorem mem_srtLines {bs : List RawBlock} {l : PyStr}
    (hl : l ∈ srtLines bs) : l = [] ∨ ∃ b ∈ bs, l ∈ blockLines b := by
  unfold srtLines at hl
  rcases mem_intercalate hl with h | ⟨p, hp, hlp⟩
  · exact Or.inl (List.mem_singleton.mp h)
  · rcases List.mem_map.mp hp with ⟨b, hb, rfl⟩
    exact Or.inr ⟨b, hb, hlp⟩

theorem srtLines_no_newline {bs : List RawBlock} (h : wfBlocks bs) :
    ∀ l ∈ srtLines bs, '\n' ∉ l := by
  intro l hl
  rcases mem_srtLines hl with rfl | ⟨b, hb, hlb⟩
  · simp
  · have hw := h b hb
    unfold blockLines at hlb
    rcases List.mem_cons.mp hlb with rfl | hlb
    · exact hw.2.2.1
    · rcases List.mem_cons.mp hlb with rfl | hlb
      · exact hw.2.2.2.2.1
      · exact (hw.2.2.2.2.2 l hlb).2.2

theorem splitChar_srtText {bs : List RawBlock} (hne : bs ≠ [])
    (h : wfBlocks bs) : splitChar '\n' (srtText bs) = srtLines bs :=
  splitChar_intercalate (srtLines_ne_nil hne) (srtLines_no_newline h)

theorem isEmpty_eq_false_of_ne_nil {α : Type} {l : List α} (h : l ≠ []) :
    l.isEmpty = false := by
  rcases l with _ | _
  · exact absurd rfl h
  · rfl

/-! ### `remove_dialogue_between` on well-formed files (claim C2) -/

theorem removeBetweenLoop_cons (s e : Int) (excl : Bool) (line : PyStr)
    (rest : List PyStr) :
    removeBetweenLoop s e excl (line :: rest) =
      if containsArrow line then
        match total_ms (startTsOf line) with
        | none => none
        | some v =>
          (removeBetweenLoop s e (if s ≤ v ∧ v < e then true else excl) rest).map
            (fun r => line :: r)
      else
        if excl then
          if !isBlank line then removeBetweenLoop s e excl rest
          else (removeBetweenLoop s e false rest).map (fun r => line :: r)
        else (removeBetweenLoop s e excl rest).map (fun r => line :: r) := by
  rfl

theorem removeBetweenLoop_skip {s e : Int} :
    ∀ (dia : List PyStr),
      (∀ d ∈ dia, containsArrow d = false ∧ isBlank d = false) →
      ∀ rest, removeBetweenLoop s e true (dia ++ rest)
        = removeBetweenLoop s e true rest := by
  intro dia
  induction dia with
  | nil => intro _ rest; rfl
  | cons d tail ih =>
    intro h rest
    obtain ⟨h1, h2⟩ := h d (by simp)
    rw [show (d :: tail) ++ rest = d :: (tail ++ rest) from rfl,
      removeBetweenLoop_cons, h1]
    simp only [Bool.false_eq_true, if_false, h2]
    exact ih (fun x hx => h x (by simp [hx])) rest

theorem removeBetweenLoop_keep {s e : Int} :
    ∀ (ls : List PyStr), (∀ d ∈ ls, containsArrow d = false) →
      ∀ rest, removeBetweenLoop s e false (ls ++ rest)
        = (removeBetweenLoop s e false rest).map (fun r => ls ++ r) := by
  intro ls
  induction ls with
  | nil =>
    intro _ rest
    simp
  | cons d tail ih =>
    intro h rest
    rw [show (d :: tail) ++ rest = d :: (tail ++ rest) from rfl,
      removeBetweenLoop_cons, h d (by simp)]
    simp only [Bool.false_eq_true, if_false]
    rw [ih (fun x hx => h x (by simp [hx])) rest]
    cases removeBetweenLoop s e false rest <;> rfl

theorem removeBetweenLoop_sep {s e : Int} (x : Bool) (rest : List PyStr) :
    removeBetweenLoop s e x ([] :: rest)
      = (removeBetweenLoop s e false rest).map (fun r => [] :: r) := by
  rw [removeBetweenLoop_cons, show containsArrow [] = false from rfl]
  cases x <;> simp [show isBlank ([] : PyStr) = true from rfl]

theorem removeBetweenLoop_plain {s e : Int} {line : PyStr}
    (h1 : containsArrow line = false) (excl : Bool) (rest : List PyStr) :
    removeBetweenLoop s e excl (line :: rest)
      = if excl then
          (if isBlank line = false then removeBetweenLoop s e excl rest
           else (removeBetweenLoop s e false rest).map (fun r => line :: r))
        else (removeBetweenLoop s e excl rest).map (fun r => line :: r) := by
  rw [removeBetweenLoop_cons, h1]
  cases excl <;> cases hb : isBlank line <;> simp [hb]

theorem removeBetweenLoop_timing {s e : Int} {line : PyStr} {v : Int}
    (h1 : containsArrow line = true) (h2 : total_ms (startTsOf line) = some v)
    (excl : Bool) (rest : List PyStr) :
    removeBetweenLoop s e excl (line :: rest)
      = (removeBetweenLoop s e (if s ≤ v ∧ v < e then true else excl) rest).map
          (fun r => line :: r) := by
  rw [removeBetweenLoop_cons, h1, h2]
  simp

theorem removeBetweenLoop_blocks (s e : Int) :
    ∀ (bs : List RawBlock), wfBlocks bs →
      (∀ b ∈ bs, (total_ms (startTsOf b.timing)).isSome = true) →
      removeBetweenLoop s e false (srtLines bs)
        = some (srtLines (bs.map (emptyIfInRange s e))) := by
  intro bs
  induction bs with
  | nil => intro _ _; rfl
  | cons b bs ih =>
    intro hwf hp
    obtain ⟨hw, hwbs⟩ := wfBlocks_cons hwf
    obtain ⟨v, hv⟩ := Option.isSome_iff_exists.mp (hp b (by simp))
    have hdia_arrow : ∀ d ∈ b.dialogue, containsArrow d = false :=
      fun d hd => (hw.2.2.2.2.2 d hd).1
    have hdia_both : ∀ d ∈ b.dialogue, containsArrow d = false ∧ isBlank d = false :=
      fun d hd => ⟨(hw.2.2.2.2.2 d hd).1, (hw.2.2.2.2.2 d hd).2.1⟩
    have hemp : emptyIfInRange s e b =
        if s ≤ v ∧ v < e then ⟨b.index, b.timing, []⟩ else b := by
      unfold emptyIfInRange
      rw [hv]
    have hhead : ∀ L, removeBetweenLoop s e false (blockLines b ++ L)
        = (removeBetweenLoop s e (if s ≤ v ∧ v < e then true else false)
            (b.dialogue ++ L)).map (fun r => b.index :: b.timing :: r) := by
      intro L
      show removeBetweenLoop s e false (b.index :: b.timing :: (b.dialogue ++ L)) = _
      rw [removeBetweenLoop_plain hw.1 false, if_neg (by simp),
        removeBetweenLoop_timing hw.2.2.2.1 hv]
      cases removeBetweenLoop s e (if s ≤ v ∧ v < e then true else false)
        (b.dialogue ++ L) <;> rfl
    rcases bs with _ | ⟨c, cs⟩
    · -- single block, no trailing separator
      rw [srtLines_single, List.map_cons, List.map_nil, srtLines_single,
        show blockLines b = blockLines b ++ [] from (List.append_nil _).symm,
        hhead []]
      by_cases hin : s ≤ v ∧ v < e
      · rw [if_pos hin, removeBetweenLoop_skip b.dialogue hdia_both [],
          hemp, if_pos hin]
        rfl
      · rw [if_neg hin, removeBetweenLoop_keep b.dialogue hdia_arrow [],
          hemp, if_neg hin]
        simp [blockLines, removeBetweenLoop]
    · -- at least one following block: a blank separator line follows
      have hrest := ih hwbs (fun x hx => hp x (by simp [hx]))
      rw [srtLines_cons b (c :: cs) (by simp), List.map_cons,
        srtLines_cons (emptyIfInRange s e b) ((c :: cs).map (emptyIfInRange s e))
          (by simp), hhead ([] :: srtLines (c :: cs))]
      by_cases hin : s ≤ v ∧ v < e
      · rw [if_pos hin, removeBetweenLoop_skip b.dialogue hdia_both _,
          removeBetweenLoop_sep, hrest, hemp, if_pos hin]
        rfl
      · rw [if_neg hin, removeBetweenLoop_keep b.dialogue hdia_arrow _,
          removeBetweenLoop_sep, hrest, hemp, if_neg hin]
        simp [blockLines]

/-- C2: on a well-formed SRT text whose timing lines all parse,
`remove_dialogue_between(text, start_ms, end_ms)` drops all dialogue lines of
every caption block whose start timestamp in milliseconds lies in the
half-open interval `[start_ms, end_ms)` while keeping that block's timing
line (and index line and blank-line structure), and leaves every block whose
start lies outside the interval completely untouched; in particular a block
starting exactly at `end_ms` retains all of its dialogue. -/
theorem remove_dialogue_between_spec :
    (∀ (bs : List RawBlock) (s e : Int), bs ≠ [] → wfBlocks bs →
      (∀ b ∈ bs, (total_ms (startTsOf b.timing)).isSome = true) →
      remove_dialogue_between (srtText bs) s e
        = some (srtText (bs.map (emptyIfInRange s e))))
    ∧ (∀ (s e v : Int) (b : RawBlock), total_ms (startTsOf b.timing) = some v →
        s ≤ v → v < e → emptyIfInRange s e b = ⟨b.index, b.timing, []⟩)
    ∧ (∀ (s e : Int) (b : RawBlock), total_ms (startTsOf b.timing) = some e →
        emptyIfInRange s e b = b) := by
  refine ⟨?_, ?_, ?_⟩
  · intro bs s e hne hwf hp
    show (removeBetweenLoop s e false (splitChar '\n' (srtText bs))).map
        (fun ls => List.intercalate ['\n']
          (if ls.isEmpty then splitChar '\n' (srtText bs) else ls))
      = some (srtText (bs.map (emptyIfInRange s e)))
    rw [splitChar_srtText hne hwf, removeBetweenLoop_blocks s e bs hwf hp]
    have hnn : srtLines (bs.map (emptyIfInRange s e)) ≠ [] :=
      srtLines_ne_nil (by
        rcases bs with _ | _
        · exact absurd rfl hne
        · simp)
    rw [Option.map_some']
    rw [isEmpty_eq_false_of_ne_nil hnn]
    rfl
  · intro s e v b h hs hv
    unfold emptyIfInRange
    rw [h]
    exact if_pos ⟨hs, hv⟩
  · intro s e b h
    unfold emptyIfInRange
    rw [h]
    exact if_neg (fun hc => absurd hc.2 (lt_irrefl e))

/-- Witness for `remove_dialogue_between_spec` on the three-block SRT of the
specification's end-to-end example (blocks starting at 0 ms, 1000 ms and
2000 ms), removing between 1000 and 2000: the middle block keeps its timing
line and loses its dialogue, the others are untouched, and the block starting
exactly at `end_ms = 2000` keeps its dialogue. -/
theorem remove_dialogue_between_spec_witness :
    remove_dialogue_between (srtText
        [⟨"1".toList, "0:00:00,000 --> 0:00:01,000".toList, ["hello a".toList]⟩,
         ⟨"2".toList, "0:00:01,000 --> 0:00:02,000".toList, ["hello b".toList]⟩,
         ⟨"3".toList, "0:00:02,000 --> 0:00:03,000".toList, ["hello c".toList]⟩])
        1000 2000
      = some (srtText
        ([⟨"1".toList, "0:00:00,000 --> 0:00:01,000".toList, ["hello a".toList]⟩,
          ⟨"2".toList, "0:00:01,000 --> 0:00:02,000".toList, ["hello b".toList]⟩,
          ⟨"3".toList, "0:00:02,000 --> 0:00:03,000".toList, ["hello c".toList]⟩].map
          (emptyIfInRange 1000 2000)))
    ∧ emptyIfInRange 1000 2000
        ⟨"3".toList, "0:00:02,000 --> 0:00:03,000".toList, ["hello c".toList]⟩
      = ⟨"3".toList, "0:00:02,000 --> 0:00:03,000".toList, ["hello c".toList]⟩ :=
  ⟨remove_dialogue_between_spec.1
      [⟨"1".toList, "0:00:00,000 --> 0:00:01,000".toList, ["hello a".toList]⟩,
       ⟨"2".toList, "0:00:01,000 --> 0:00:02,000".toList, ["hello b".toList]⟩,
       ⟨"3".toList, "0:00:02,000 --> 0:00:03,000".toList, ["hello c".toList]⟩]
      1000 2000 (by decide) (by decide) (by decide),
    remove_dialogue_between_spec.2.2 1000 2000
      ⟨"3".toList, "0:00:02,000 --> 0:00:03,000".toList, ["hello c".toList]⟩
      (by decide)⟩

/-! ### `get_srt_duration` on well-formed files (claim C3) -/

theorem durationLoop_cons (f line : PyStr) (rest : List PyStr) :
    durationLoop f (line :: rest) =
      if containsArrow line then
        if isBlank f then durationLoop f rest
        else
          match (total_seconds (endTsOfLine line)).bind pyFloat with
          | none => none
          | some v => some (some v)
      else durationLoop line rest := by
  rfl

theorem durationLoop_skip_plain :
    ∀ (L : List PyStr), (∀ x ∈ L, containsArrow x = false) →
      ∀ (f : PyStr) (rest : List PyStr),
        durationLoop f (L ++ rest) = durationLoop (L.getLastD f) rest := by
  intro L
  induction L with
  | nil => intro _ f rest; rfl
  | cons d tail ih =>
    intro h f rest
    rw [show (d :: tail) ++ rest = d :: (tail ++ rest) from rfl,
      durationLoop_cons, h d (by simp)]
    simp only [Bool.false_eq_true, if_false]
    rw [ih (fun x hx => h x (by simp [hx])) d rest, List.getLastD_cons]

theorem durationLoop_spoken_block {b : RawBlock} (hw : wfBlock b)
    {d : PyStr} {ds : List PyStr} (hdia : b.dialogue = d :: ds)
    (f : PyStr) (rest : List PyStr) :
    durationLoop f ((blockLines b).reverse ++ rest)
      = Option.map some ((total_seconds (endTsOfLine b.timing)).bind pyFloat) := by
  have hrev : (blockLines b).reverse ++ rest
      = b.dialogue.reverse ++ (b.timing :: b.index :: rest) := by
    unfold blockLines
    simp
  have hdarrow : ∀ x ∈ b.dialogue.reverse, containsArrow x = false := by
    intro x hx
    exact (hw.2.2.2.2.2 x (List.mem_reverse.mp hx)).1
  have hstate : (b.dialogue.reverse).getLastD f = d := by
    rw [hdia, List.reverse_cons, List.getLastD_concat]
  have hdblank : isBlank d = false :=
    (hw.2.2.2.2.2 d (by rw [hdia]; simp)).2.1
  rw [hrev, durationLoop_skip_plain _ hdarrow f _, hstate,
    durationLoop_cons, hw.2.2.2.1]
  simp only [if_pos rfl, hdblank, Bool.false_eq_true, if_false, if_true]
  cases (total_seconds (endTsOfLine b.timing)).bind pyFloat <;> rfl

theorem durationLoop_blank_block {b : RawBlock} (hw : wfBlock b)
    (hdia : b.dialogue = []) (f : PyStr) (hf : isBlank f = true)
    (rest : List PyStr) :
    durationLoop f ((blockLines b).reverse ++ rest)
      = durationLoop b.index rest := by
  have hrev : (blockLines b).reverse = [b.timing, b.index] := by
    unfold blockLines
    rw [hdia]
    rfl
  rw [hrev, show [b.timing, b.index] ++ rest = b.timing :: b.index :: rest from rfl,
    durationLoop_cons, hw.2.2.2.1, if_pos rfl, if_pos hf,
    durationLoop_cons, hw.1]
  simp

theorem durationLoop_blank_line (x : PyStr) (rest : List PyStr) :
    durationLoop x ([] :: rest) = durationLoop [] rest := by
  rw [durationLoop_cons, show containsArrow [] = false from rfl]
  simp

theorem durationLoop_blocks :
    ∀ (bs : List RawBlock), wfBlocks bs →
      durationLoop [] ((srtLines bs).reverse) =
        match lastSpoken bs with
        | none => some none
        | some b =>
          Option.map some ((total_seconds (endTsOfLine b.timing)).bind pyFloat) := by
  intro bs
  induction bs using List.reverseRecOn with
  | nil => intro _; rfl
  | append_singleton bs b ih =>
    intro hwf
    obtain ⟨hwbs, hwb⟩ := wfBlocks_concat hwf
    rcases bs with _ | ⟨c, cs⟩
    · rw [show ([] : List RawBlock) ++ [b] = [b] from rfl, srtLines_single]
      rcases hdia : b.dialogue with _ | ⟨d, ds⟩
      · rw [show (blockLines b).reverse = (blockLines b).reverse ++ []
            from (List.append_nil _).symm,
          durationLoop_blank_block hwb hdia [] rfl []]
        simp [lastSpoken, hdia, durationLoop]
      · rw [show (blockLines b).reverse = (blockLines b).reverse ++ []
            from (List.append_nil _).symm,
          durationLoop_spoken_block hwb hdia [] []]
        simp [lastSpoken, hdia]
    · rw [srtLines_concat (c :: cs) b (by simp)]
      have hrev : (srtLines (c :: cs) ++ [] :: blockLines b).reverse
          = (blockLines b).reverse ++ [] :: (srtLines (c :: cs)).reverse := by
        simp
      rw [hrev]
      rcases hdia : b.dialogue with _ | ⟨d, ds⟩
      · rw [durationLoop_blank_block hwb hdia [] rfl _,
          durationLoop_blank_line, ih hwbs]
        have hfilter : (((c :: cs) ++ [b]).filter (fun x => !x.dialogue.isEmpty))
            = ((c :: cs).filter (fun x => !x.dialogue.isEmpty)) := by
          rw [List.filter_append]
          simp [hdia]
        unfold lastSpoken
        rw [hfilter]
      · rw [durationLoop_spoken_block hwb hdia [] _]
        have hfilter : (((c :: cs) ++ [b]).filter (fun x => !x.dialogue.isEmpty))
            = ((c :: cs).filter (fun x => !x.dialogue.isEmpty)) ++ [b] := by
          rw [List.filter_append]
          simp [hdia]
        unfold lastSpoken
        rw [hfilter, List.getLast?_concat]

/-- C3: on a well-formed SRT text, `get_srt_duration` returns (as a float
number of seconds, via `float(total_seconds(end_ts))` on the space-stripped
end timestamp) the end timestamp of the last caption block whose dialogue is
non-empty — scanning lines from the end of the file backwards and ignoring a
trailing timing line attached to a blank (empty-dialogue) cue — and returns
`default_end_seconds` when no block with non-empty dialogue exists. -/
theorem get_srt_duration_spec (bs : List RawBlock) (q : ℚ) (hne : bs ≠ [])
    (hwf : wfBlocks bs) :
    (lastSpoken bs = none → get_srt_duration (srtText bs) q = some q)
    ∧ (∀ b, lastSpoken bs = some b →
        get_srt_duration (srtText bs) q
          = (total_seconds (endTsOfLine b.timing)).bind pyFloat) := by
  constructor
  · intro hls
    unfold get_srt_duration
    rw [splitChar_srtText hne hwf]
    have hdl : durationLoop [] ((srtLines bs).reverse) = some none := by
      rw [durationLoop_blocks bs hwf, hls]
    rw [hdl]
  · intro b hls
    unfold get_srt_duration
    rw [splitChar_srtText hne hwf]
    have hdl : durationLoop [] ((srtLines bs).reverse)
        = Option.map some ((total_seconds (endTsOfLine b.timing)).bind pyFloat) := by
      rw [durationLoop_blocks bs hwf, hls]
    cases hx : (total_seconds (endTsOfLine b.timing)).bind pyFloat with
    | none =>
      rw [hx] at hdl
      rw [hdl]
      rfl
    | some v =>
      rw [hx] at hdl
      rw [hdl]
      rfl

/-- Witness for `get_srt_duration_spec`: a spoken cue ending at 2 seconds
followed by a trailing blank-dialogue cue ending at 3 seconds; the duration
is the spoken cue's end (2.0 s), not the blank cue's. -/
theorem get_srt_duration_spec_witness :
    get_srt_duration (srtText
        [⟨"1".toList, "0:00:00,000 --> 0:00:02,000".toList, ["hello".toList]⟩,
         ⟨"2".toList, "0:00:02,000 --> 0:00:03,000".toList, []⟩]) 0 =
      (total_seconds (endTsOfLine
        "0:00:00,000 --> 0:00:02,000".toList)).bind pyFloat :=
  (get_srt_duration_spec
    [⟨"1".toList, "0:00:00,000 --> 0:00:02,000".toList, ["hello".toList]⟩,
     ⟨"2".toList, "0:00:02,000 --> 0:00:03,000".toList, []⟩] 0
    (by decide) (by decide)).2
    ⟨"1".toList, "0:00:00,000 --> 0:00:02,000".toList, ["hello".toList]⟩
    (by decide)

/-! ### `remove_dialogue_for_first_ts` on well-formed files (claim C4) -/

theorem removeFirstTsLoop_cons (ts line : PyStr) (rest : List PyStr) :
    removeFirstTsLoop ts (line :: rest) =
      if containsArrow line then
        if startTsOf line = ts then some (line :: removeDialogueSuffix rest)
        else (removeFirstTsLoop ts rest).map (fun r => line :: r)
      else (removeFirstTsLoop ts rest).map (fun r => line :: r) := by
  rfl

theorem removeFirstTsLoop_lines {ts : PyStr} :
    ∀ (ls : List PyStr), (∀ d ∈ ls, containsArrow d = false) →
      ∀ rest, removeFirstTsLoop ts (ls ++ rest)
        = (removeFirstTsLoop ts rest).map (fun r => ls ++ r) := by
  intro ls
  induction ls with
  | nil =>
    intro _ rest
    simp
  | cons d tail ih =>
    intro h rest
    rw [show (d :: tail) ++ rest = d :: (tail ++ rest) from rfl,
      removeFirstTsLoop_cons, h d (by simp)]
    simp only [Bool.false_eq_true, if_false]
    rw [ih (fun x hx => h x (by simp [hx])) rest]
    cases removeFirstTsLoop ts rest <;> rfl

theorem findIdx_isBlank_append {dia : List PyStr}
    (h : ∀ d ∈ dia, isBlank d = false) (rest : List PyStr) :
    List.findIdx? (fun l => isBlank l) (dia ++ [] :: rest) = some dia.length := by
  induction dia with
  | nil => simp [show isBlank ([] : PyStr) = true from rfl]
  | cons d tail ih =>
    rw [show (d :: tail) ++ [] :: rest = d :: (tail ++ [] :: rest) from rfl,
      List.findIdx?_cons, if_neg (by simp [h d (by simp)]), List.findIdx?_succ,
      ih (fun x hx => h x (by simp [hx]))]
    rfl

theorem removeDialogueSuffix_append {dia : List PyStr}
    (h : ∀ d ∈ dia, isBlank d = false) (rest : List PyStr) :
    removeDialogueSuffix (dia ++ [] :: rest) = [] :: rest := by
  unfold removeDialogueSuffix
  rw [findIdx_isBlank_append h rest]
  exact List.drop_left dia ([] :: rest)

theorem removeDialogueSuffix_no_blank {dia : List PyStr}
    (h : ∀ d ∈ dia, isBlank d = false) :
    removeDialogueSuffix dia = dia := by
  unfold removeDialogueSuffix
  rw [List.findIdx?_eq_none_iff.mpr h]

theorem removeFirstTsLoop_blocks (ts : PyStr) :
    ∀ (bs : List RawBlock), wfBlocks bs →
      removeFirstTsLoop ts (srtLines bs) =
        match bs.findIdx? (fun b => startTsOf b.timing == ts) with
        | none => none
        | some k =>
          some (srtLines (if k + 1 = bs.length then bs else emptyDialogueAt k bs)) := by
  intro bs
  induction bs with
  | nil => intro _; rfl
  | cons b bs ih =>
    intro hwf
    obtain ⟨hw, hwbs⟩ := wfBlocks_cons hwf
    have hdia_arrow : ∀ d ∈ b.dialogue, containsArrow d = false :=
      fun d hd => (hw.2.2.2.2.2 d hd).1
    have hdia_blank : ∀ d ∈ b.dialogue, isBlank d = false :=
      fun d hd => (hw.2.2.2.2.2 d hd).2.1
    by_cases hmatch : startTsOf b.timing = ts
    · have hfi : (b :: bs).findIdx? (fun x => startTsOf x.timing == ts) = some 0 := by
        rw [List.findIdx?_cons, if_pos (by simp [hmatch])]
      rw [hfi]
      rcases bs with _ | ⟨c, cs⟩
      · rw [srtLines_single,
          show blockLines b = b.index :: b.timing :: b.dialogue from rfl,
          removeFirstTsLoop_cons, hw.1]
        simp only [Bool.false_eq_true, if_false]
        rw [removeFirstTsLoop_cons, hw.2.2.2.1, if_pos rfl, if_pos hmatch,
          removeDialogueSuffix_no_blank hdia_blank]
        rw [if_pos (by simp), srtLines_single]
        rfl
      · rw [srtLines_cons b (c :: cs) (by simp),
          show blockLines b ++ [] :: srtLines (c :: cs)
            = b.index :: b.timing :: (b.dialogue ++ [] :: srtLines (c :: cs)) from rfl,
          removeFirstTsLoop_cons, hw.1]
        simp only [Bool.false_eq_true, if_false]
        rw [removeFirstTsLoop_cons, hw.2.2.2.1, if_pos rfl, if_pos hmatch,
          removeDialogueSuffix_append hdia_blank]
        rw [if_neg (by simp)]
        rw [show emptyDialogueAt 0 (b :: c :: cs)
            = (⟨b.index, b.timing, []⟩ : RawBlock) :: c :: cs from rfl,
          srtLines_cons _ (c :: cs) (by simp)]
        rfl
    · have hfi : (b :: bs).findIdx? (fun x => startTsOf x.timing == ts)
          = (bs.findIdx? (fun x => startTsOf x.timing == ts)).map (fun i => i + 1) := by
        rw [List.findIdx?_cons, if_neg (by simp [hmatch]), List.findIdx?_succ]
      rw [hfi]
      rcases bs with _ | ⟨c, cs⟩
      · rw [srtLines_single,
          show blockLines b = [b.index] ++ [b.timing] ++ b.dialogue from by
            simp [blockLines]]
        rw [show [b.index] ++ [b.timing] ++ b.dialogue
            = b.index :: b.timing :: b.dialogue from by simp]
        rw [removeFirstTsLoop_cons, hw.1]
        simp only [Bool.false_eq_true, if_false]
        rw [removeFirstTsLoop_cons, hw.2.2.2.1, if_pos rfl, if_neg hmatch]
        rw [show b.dialogue = b.dialogue ++ [] from (List.append_nil _).symm,
          removeFirstTsLoop_lines b.dialogue hdia_arrow []]
        rfl
      · rw [srtLines_cons b (c :: cs) (by simp),
          show blockLines b ++ [] :: srtLines (c :: cs)
            = b.index :: b.timing :: (b.dialogue ++ [] :: srtLines (c :: cs)) from rfl,
          removeFirstTsLoop_cons, hw.1]
        simp only [Bool.false_eq_true, if_false]
        rw [removeFirstTsLoop_cons, hw.2.2.2.1, if_pos rfl, if_neg hmatch,
          removeFirstTsLoop_lines b.dialogue hdia_arrow _,
          removeFirstTsLoop_cons, show containsArrow [] = false from rfl]
        simp only [Bool.false_eq_true, if_false]
        rw [ih hwbs]
        cases hfx : (c :: cs).findIdx? (fun x => startTsOf x.timing == ts) with
        | none => rfl
        | some k =>
          simp only [Option.map_some']
          by_cases hlast : k + 1 = (c :: cs).length
          · rw [if_pos hlast, if_pos (by simp [hlast])]
            rw [srtLines_cons b (c :: cs) (by simp)]
            rfl
          · rw [if_neg hlast, if_neg (by
                simp only [List.length_cons] at hlast ⊢
                omega)]
            rw [show emptyDialogueAt (k + 1) (b :: c :: cs)
                = b :: emptyDialogueAt k (c :: cs) from rfl]
            have hne2 : emptyDialogueAt k (c :: cs) ≠ [] := by
              rcases k with _ | k <;> simp [emptyDialogueAt]
            rw [srtLines_cons b _ hne2]
            rfl

/-- C4 counterexample, refuting two parts of the claim on concrete inputs.
(a) Matching does not remove internal spaces: the timing line
`"0:0 0:01,000 --> 0:00:02,000"` has a start timestamp whose space-removed
form equals the target `"0:00:01,000"`, yet the text comes back unchanged
with its dialogue (`"hello"`) intact.
(b) When the matching block is the final block and no blank line follows,
`split_ind` stays `i + 1` and nothing is deleted: the text comes back
unchanged although its start timestamp matches the target exactly. -/
theorem remove_first_ts_counterexample :
    ((startTsOf "0:0 0:01,000 --> 0:00:02,000".toList).filter (fun c => c ≠ ' ')
        = "0:00:01,000".toList
      ∧ remove_dialogue_for_first_ts
          "1\n0:0 0:01,000 --> 0:00:02,000\nhello\n\n2\n0:00:03,000 --> 0:00:04,000\nbye".toList
          "0:00:01,000".toList
        = "1\n0:0 0:01,000 --> 0:00:02,000\nhello\n\n2\n0:00:03,000 --> 0:00:04,000\nbye".toList
      ∧ "1\n0:0 0:01,000 --> 0:00:02,000\nhello\n\n2\n0:00:03,000 --> 0:00:04,000\nbye".toList
        ≠ "1\n0:0 0:01,000 --> 0:00:02,000\n\n2\n0:00:03,000 --> 0:00:04,000\nbye".toList)
    ∧ (startTsOf "0:00:01,000 --> 0:00:02,000".toList = "0:00:01,000".toList
      ∧ remove_dialogue_for_first_ts
          "1\n0:00:01,000 --> 0:00:02,000\nhello".toList "0:00:01,000".toList
        = "1\n0:00:01,000 --> 0:00:02,000\nhello".toList
      ∧ "1\n0:00:01,000 --> 0:00:02,000\nhello".toList
        ≠ "1\n0:00:01,000 --> 0:00:02,000".toList) := by
  exact ⟨⟨by decide, by decide, by decide⟩, ⟨by decide, by decide, by decide⟩⟩

/-- C4 (amended): on a well-formed SRT text,
`remove_dialogue_for_first_ts(text, ts)` locates the first timing line whose
start timestamp (after stripping leading/trailing whitespace only — internal
spaces are kept) exactly equals `ts` and deletes that block's dialogue lines
while preserving the timing line and blank-line structure — except that when
the matching block is the final block (so no blank line follows), nothing is
deleted and the text is returned unchanged; when no timestamp matches, the
input is returned unchanged. -/
theorem remove_dialogue_for_first_ts_spec (bs : List RawBlock) (ts : PyStr)
    (hne : bs ≠ []) (hwf : wfBlocks bs) :
    (bs.findIdx? (fun b => startTsOf b.timing == ts) = none →
      remove_dialogue_for_first_ts (srtText bs) ts = srtText bs)
    ∧ (∀ k, bs.findIdx? (fun b => startTsOf b.timing == ts) = some k →
        remove_dialogue_for_first_ts (srtText bs) ts
          = if k + 1 = bs.length then srtText bs
            else srtText (emptyDialogueAt k bs)) := by
  constructor
  · intro hls
    unfold remove_dialogue_for_first_ts
    rw [splitChar_srtText hne hwf]
    have hloop : removeFirstTsLoop ts (srtLines bs) = none := by
      rw [removeFirstTsLoop_blocks ts bs hwf, hls]
    rw [hloop]
  · intro k hls
    unfold remove_dialogue_for_first_ts
    rw [splitChar_srtText hne hwf]
    have hloop : removeFirstTsLoop ts (srtLines bs)
        = some (srtLines (if k + 1 = bs.length then bs else emptyDialogueAt k bs)) := by
      rw [removeFirstTsLoop_blocks ts bs hwf, hls]
    rw [hloop]
    by_cases hlast : k + 1 = bs.length
    · rw [if_pos hlast, if_pos hlast]
      rfl
    · rw [if_neg hlast, if_neg hlast]
      rfl

/-- Witness for `remove_dialogue_for_first_ts_spec`: a three-block SRT where
the target timestamp matches the middle block, whose dialogue is removed. -/
theorem remove_dialogue_for_first_ts_spec_witness :
    remove_dialogue_for_first_ts (srtText
        [⟨"1".toList, "0:00:00,000 --> 0:00:01,000".toList, ["a".toList]⟩,
         ⟨"2".toList, "0:00:01,000 --> 0:00:02,000".toList, ["b".toList]⟩,
         ⟨"3".toList, "0:00:02,000 --> 0:00:03,000".toList, ["c".toList]⟩])
        "0:00:01,000".toList
      = if 1 + 1 = ([⟨"1".toList, "0:00:00,000 --> 0:00:01,000".toList, ["a".toList]⟩,
          ⟨"2".toList, "0:00:01,000 --> 0:00:02,000".toList, ["b".toList]⟩,
          ⟨"3".toList, "0:00:02,000 --> 0:00:03,000".toList, ["c".toList]⟩]
            : List RawBlock).length
        then srtText
          [⟨"1".toList, "0:00:00,000 --> 0:00:01,000".toList, ["a".toList]⟩,
           ⟨"2".toList, "0:00:01,000 --> 0:00:02,000".toList, ["b".toList]⟩,
           ⟨"3".toList, "0:00:02,000 --> 0:00:03,000".toList, ["c".toList]⟩]
        else srtText (emptyDialogueAt 1
          [⟨"1".toList, "0:00:00,000 --> 0:00:01,000".toList, ["a".toList]⟩,
           ⟨"2".toList, "0:00:01,000 --> 0:00:02,000".toList, ["b".toList]⟩,
           ⟨"3".toList, "0:00:02,000 --> 0:00:03,000".toList, ["c".toList]⟩]) :=
  (remove_dialogue_for_first_ts_spec
    [⟨"1".toList, "0:00:00,000 --> 0:00:01,000".toList, ["a".toList]⟩,
     ⟨"2".toList, "0:00:01,000 --> 0:00:02,000".toList, ["b".toList]⟩,
     ⟨"3".toList, "0:00:02,000 --> 0:00:03,000".toList, ["c".toList]⟩]
    "0:00:01,000".toList (by decide) (by decide)).2 1 (by decide)

/-- C8 counterexample: with a non-zero offset the post-processing interval is
left-closed, not strictly-between.  The fetched transcript has one block
starting exactly at `first_end_ms` (1000 ms — not strictly between 1000 and
1500), yet its dialogue is stripped. -/
theorem cut_transcript_boundary_counterexample :
    cut_transcript_in_middle
        (fun _ => "1\n0:00:01,000 --> 0:00:02,000\nhello".toList)
        "0:00:01,000".toList "0:00:05,000".toList 500 "99:99:99,999".toList
      = some "1\n0:00:01,000 --> 0:00:02,000".toList
    ∧ total_ms (startTsOf "0:00:01,000 --> 0:00:02,000".toList)
        = total_ms "0:00:01,000".toList
    ∧ ("1\n0:00:01,000 --> 0:00:02,000".toList : PyStr)
        ≠ "1\n0:00:01,000 --> 0:00:02,000\nhello".toList := by
  exact ⟨by decide, by decide, by decide⟩

/-- C8 (amended): `cut_transcript_in_middle` with a non-zero
`second_offset_ms` requests the clip ranges
`["0,first_end_ms+second_offset_ms", "second_start_ms,second_end_ms"]` and
post-processes the fetched text with
`remove_dialogue_between(text, first_end_ms, first_end_ms+second_offset_ms)`,
i.e. it strips the dialogue of blocks starting in the half-open interval
`[first_end_ms, first_end_ms+second_offset_ms)` (the block starting exactly
at `first_end_ms` included); with `second_offset_ms == 0` it requests
`["0,first_end_ms", "second_start_ms,second_end_ms"]` and instead removes
the dialogue of the first block whose start timestamp exactly matches
`first_end`. -/
theorem cut_transcript_in_middle_spec (fetch : List PyStr → PyStr)
    (fe ss se : PyStr) (off A B C : Int)
    (hfe : total_ms fe = some A) (hss : total_ms ss = some B)
    (hse : total_ms se = some C) :
    (off ≠ 0 → cut_transcript_in_middle fetch fe ss off se
        = remove_dialogue_between
            (fetch ['0' :: ',' :: pyStrInt (A + off), pyStrInt B ++ ',' :: pyStrInt C])
            A (A + off))
    ∧ cut_transcript_in_middle fetch fe ss 0 se
        = some (remove_dialogue_for_first_ts
            (fetch ['0' :: ',' :: pyStrInt A, pyStrInt B ++ ',' :: pyStrInt C]) fe) := by
  constructor
  · intro hoff
    simp [cut_transcript_in_middle, hfe, hss, hse, hoff]
  · simp [cut_transcript_in_middle, hfe, hss, hse]

/-- Witness for `cut_transcript_in_middle_spec` with a constant fetch
function and both offset values. -/
theorem cut_transcript_in_middle_spec_witness :
    ((500 : Int) ≠ 0 → cut_transcript_in_middle
        (fun _ => "1\n0:00:01,000 --> 0:00:02,000\nhello".toList)
        "0:00:01,000".toList "0:00:05,000".toList 500 "99:99:99,999".toList
      = remove_dialogue_between
          ((fun _ => "1\n0:00:01,000 --> 0:00:02,000\nhello".toList)
            ['0' :: ',' :: pyStrInt (1000 + 500),
             pyStrInt 5000 ++ ',' :: pyStrInt 362439999])
          1000 (1000 + 500))
    ∧ cut_transcript_in_middle
        (fun _ => "1\n0:00:01,000 --> 0:00:02,000\nhello".toList)
        "0:00:01,000".toList "0:00:05,000".toList 0 "99:99:99,999".toList
      = some (remove_dialogue_for_first_ts
          ((fun _ => "1\n0:00:01,000 --> 0:00:02,000\nhello".toList)
            ['0' :: ',' :: pyStrInt 1000, pyStrInt 5000 ++ ',' :: pyStrInt 362439999])
          "0:00:01,000".toList) :=
  cut_transcript_in_middle_spec
    (fun _ => "1\n0:00:01,000 --> 0:00:02,000\nhello".toList)
    "0:00:01,000".toList "0:00:05,000".toList "99:99:99,999".toList 500
    1000 5000 362439999 (by decide) (by decide) (by decide)

example : total_ms "1:20:32,005".toList = some 4832005 := by decide
example : total_ms "1:20:32.005".toList = some 4832005 := by decide
example : total_ms "1:20:32:005".toList = some 4832005 := by decide
example : total_seconds "1:20:32,5".toList = some "4832.005".toList := by decide
example : total_ms "abc".toList = none := by decide
example : total_ms "1:2:3,x".toList = none := by decide
example : total_ms "99:99:99,999".toList = some 362439999 := by decide

end ThreePlay
